import Mathlib

/-
  Verification development for the spruthub-cli repository.

  This file shallowly embeds the parts of the TypeScript source that the
  checked properties are about:

  * `src/utils/scenario-code.ts` — the scenario codec (extraction/injection
    of scenario code to and from a directory of files), together with the
    `JSON.parse` / `JSON.stringify` builtins it relies on;
  * `src/commands/core/scripts.ts` — `compareScenarios`;
  * `src/commands/dynamic/parameter-handling.ts` — positional-parameter
    resolution and the parameter builder;
  * `src/commands/dynamic/method-commands.ts` — the synthesized command
    action (modelled as an event trace).

  Modeling notes (fidelity boundaries, stated once here):
  * JSON numbers are modelled as integers.  Fractional and exponent-form
    numbers (IEEE-754 doubles in JS) are outside the model: the embedded
    parser rejects them, so universally quantified statements whose
    hypotheses include a successful parse range over integer-numeric JSON.
  * JS objects are modelled as ordered association lists (JS objects
    preserve string-key insertion order and `JSON.stringify` serializes in
    that order).  JS objects cannot hold a key twice; the embedded parser
    keeps duplicate keys as repeated entries instead of collapsing them,
    which agrees with JS on every duplicate-free text.
  * `String.prototype.localeCompare` (used as a sort tie-breaker) is
    modelled as code-point lexicographic comparison; every property proved
    below is insensitive to the particular total string comparison used.
  * Lone UTF-16 surrogates (representable in JS strings but not in Lean
    `Char`) are outside the model; the embedded string lexer rejects a
    `\u` escape denoting an unpaired surrogate.
  * Schemas are modelled with a `required` array present (possibly empty)
    at every object node, matching the spec's data model; a schema whose
    nested object node lacks `required` makes the source throw while
    traversing and is outside the modelled domain.
-/

/-! ## JSON values

JS runtime values produced by `JSON.parse` and consumed by
`JSON.stringify`, as a mutual inductive so that recursion and induction
over arrays and objects stay structural. -/

mutual

inductive Jval : Type where
  | jnull : Jval
  | jbool : Bool → Jval
  | jnum : Int → Jval
  | jstr : String → Jval
  | jarr : Jarr → Jval
  | jobj : Jobj → Jval

inductive Jarr : Type where
  | nil : Jarr
  | cons : Jval → Jarr → Jarr

inductive Jobj : Type where
  | nil : Jobj
  | cons : String → Jval → Jobj → Jobj

end

mutual

def Jval.beq : Jval → Jval → Bool
  | .jnull, .jnull => true
  | .jbool a, .jbool b => a == b
  | .jnum a, .jnum b => a == b
  | .jstr a, .jstr b => a == b
  | .jarr a, .jarr b => Jarr.beq a b
  | .jobj a, .jobj b => Jobj.beq a b
  | _, _ => false

def Jarr.beq : Jarr → Jarr → Bool
  | .nil, .nil => true
  | .cons v a, .cons w b => Jval.beq v w && Jarr.beq a b
  | _, _ => false

def Jobj.beq : Jobj → Jobj → Bool
  | .nil, .nil => true
  | .cons k v a, .cons l w b => k == l && Jval.beq v w && Jobj.beq a b
  | _, _ => false

end

mutual

theorem Jval.beq_iff_val : ∀ a b : Jval, Jval.beq a b = true ↔ a = b
  | .jnull, .jnull => by simp [Jval.beq]
  | .jbool _, .jbool _ => by simp [Jval.beq]
  | .jnum _, .jnum _ => by simp [Jval.beq]
  | .jstr _, .jstr _ => by simp [Jval.beq]
  | .jarr a, .jarr b => by simp [Jval.beq, Jarr.beq_iff_arr a b]
  | .jobj a, .jobj b => by simp [Jval.beq, Jobj.beq_iff_obj a b]
  | .jnull, .jbool _ | .jnull, .jnum _ | .jnull, .jstr _ | .jnull, .jarr _ | .jnull, .jobj _
  | .jbool _, .jnull | .jbool _, .jnum _ | .jbool _, .jstr _ | .jbool _, .jarr _
  | .jbool _, .jobj _
  | .jnum _, .jnull | .jnum _, .jbool _ | .jnum _, .jstr _ | .jnum _, .jarr _ | .jnum _, .jobj _
  | .jstr _, .jnull | .jstr _, .jbool _ | .jstr _, .jnum _ | .jstr _, .jarr _ | .jstr _, .jobj _
  | .jarr _, .jnull | .jarr _, .jbool _ | .jarr _, .jnum _ | .jarr _, .jstr _ | .jarr _, .jobj _
  | .jobj _, .jnull | .jobj _, .jbool _ | .jobj _, .jnum _ | .jobj _, .jstr _
  | .jobj _, .jarr _ => by simp [Jval.beq]

theorem Jarr.beq_iff_arr : ∀ a b : Jarr, Jarr.beq a b = true ↔ a = b
  | .nil, .nil => by simp [Jarr.beq]
  | .cons v a, .cons w b => by simp [Jarr.beq, Jval.beq_iff_val v w, Jarr.beq_iff_arr a b]
  | .nil, .cons _ _ => by simp [Jarr.beq]
  | .cons _ _, .nil => by simp [Jarr.beq]

theorem Jobj.beq_iff_obj : ∀ a b : Jobj, Jobj.beq a b = true ↔ a = b
  | .nil, .nil => by simp [Jobj.beq]
  | .cons k v a, .cons l w b => by
    simp [Jobj.beq, Jval.beq_iff_val v w, Jobj.beq_iff_obj a b, and_assoc]
  | .nil, .cons _ _ _ => by simp [Jobj.beq]
  | .cons _ _ _, .nil => by simp [Jobj.beq]

end

instance : DecidableEq Jval := fun a b =>
  decidable_of_iff (Jval.beq a b = true) (Jval.beq_iff_val a b)

instance : DecidableEq Jarr := fun a b =>
  decidable_of_iff (Jarr.beq a b = true) (Jarr.beq_iff_arr a b)

instance : DecidableEq Jobj := fun a b =>
  decidable_of_iff (Jobj.beq a b = true) (Jobj.beq_iff_obj a b)

/-! ## Number rendering and lexing

`JSON.stringify` renders an integer JS number as an optional minus sign
followed by its decimal digits; `JSON.parse` reads the JSON number
grammar.  Fractional and exponent forms are outside the model. -/

def digitChar (d : Nat) : Char := Char.ofNat (48 + d)

def digToNat (c : Char) : Nat := c.toNat - 48

def natCharsAux : Nat → Nat → List Char
  | 0, _ => []
  | fuel + 1, n => if n = 0 then [] else natCharsAux fuel (n / 10) ++ [digitChar (n % 10)]

/-- Decimal digits of `m`, most significant first (`"0"` for zero). -/
def natChars (m : Nat) : List Char :=
  if m = 0 then ['0'] else natCharsAux m m

theorem natCharsAux_eq_digits : ∀ (fuel n : Nat), n ≤ fuel →
    natCharsAux fuel n = (Nat.digits 10 n).reverse.map digitChar := by
  intro fuel
  induction fuel with
  | zero => intro n hn; interval_cases n; simp [natCharsAux]
  | succ f ih =>
    intro n hn
    by_cases h0 : n = 0
    · subst h0; simp [natCharsAux]
    · have hdiv : n / 10 ≤ f := by
        have := Nat.div_lt_self (Nat.pos_of_ne_zero h0) (by norm_num : 1 < 10)
        omega
      rw [natCharsAux, if_neg h0, ih _ hdiv,
        Nat.digits_def' (by norm_num : 1 < 10) (Nat.pos_of_ne_zero h0)]
      simp

theorem natChars_eq (m : Nat) :
    natChars m = if m = 0 then ['0'] else (Nat.digits 10 m).reverse.map digitChar := by
  by_cases hm : m = 0
  · simp [natChars, hm]
  · simp [natChars, hm, natCharsAux_eq_digits m m le_rfl]

/-- Rendering of an integer JS number by `JSON.stringify` / template strings. -/
def intChars (n : Int) : List Char :=
  if n < 0 then '-' :: natChars n.natAbs else natChars n.toNat


def lexNat (cs : List Char) : Option (Nat × List Char) :=
  match cs.takeWhile (·.isDigit) with
  | [] => none
  | c :: tl => if c = '0' ∧ tl ≠ [] then none
               else some ((c :: tl).foldl (fun a c => 10 * a + digToNat c) 0,
                          cs.dropWhile (·.isDigit))

def lexInt (cs : List Char) : Option (Int × List Char) :=
  match cs with
  | '-' :: rest => (lexNat rest).map (fun p => (-(p.1 : Int), p.2))
  | _ => (lexNat cs).map (fun p => ((p.1 : Int), p.2))

theorem digToNat_digitChar {d : Nat} (h : d < 10) : digToNat (digitChar d) = d := by
  interval_cases d <;> decide

theorem isDigit_digitChar {d : Nat} (h : d < 10) : (digitChar d).isDigit = true := by
  interval_cases d <;> decide

theorem digitChar_ne_zero {d : Nat} (h0 : d ≠ 0) (h : d < 10) : digitChar d ≠ '0' := by
  interval_cases d <;> first | omega | decide

/-- The head of the list, if any, is not a decimal digit. -/
def noDigitHead : List Char → Prop
  | [] => True
  | c :: _ => c.isDigit = false

theorem takeWhile_digits_append {l rest : List Char} (hl : ∀ c ∈ l, c.isDigit = true)
    (hr : noDigitHead rest) : (l ++ rest).takeWhile (·.isDigit) = l := by
  induction l with
  | nil =>
    cases rest with
    | nil => rfl
    | cons c cs => simp only [noDigitHead] at hr; simp [List.takeWhile, hr]
  | cons c cs ih =>
    have hc : c.isDigit = true := hl c (List.mem_cons_self _ _)
    simp [List.takeWhile, hc, ih (fun x hx => hl x (List.mem_cons_of_mem _ hx))]

theorem dropWhile_digits_append {l rest : List Char} (hl : ∀ c ∈ l, c.isDigit = true)
    (hr : noDigitHead rest) : (l ++ rest).dropWhile (·.isDigit) = rest := by
  induction l with
  | nil =>
    cases rest with
    | nil => rfl
    | cons c cs => simp only [noDigitHead] at hr; simp [List.dropWhile, hr]
  | cons c cs ih =>
    have hc : c.isDigit = true := hl c (List.mem_cons_self _ _)
    simp [List.dropWhile, hc, ih (fun x hx => hl x (List.mem_cons_of_mem _ hx))]

theorem foldl_digits_val : ∀ (l : List Nat), (∀ d ∈ l, d < 10) →
    (l.reverse.map digitChar).foldl (fun a c => 10 * a + digToNat c) 0 = Nat.ofDigits 10 l := by
  intro l hl
  induction l with
  | nil => simp [Nat.ofDigits]
  | cons d tl ih =>
    have hd : d < 10 := hl d (List.mem_cons_self _ _)
    have ih' := ih (fun x hx => hl x (List.mem_cons_of_mem _ hx))
    simp only [List.reverse_cons, List.map_append, List.map_cons, List.map_nil,
      List.foldl_append, List.foldl_cons, List.foldl_nil, ih', Nat.ofDigits_cons,
      digToNat_digitChar hd]
    ring

theorem natChars_all_digits (m : Nat) : ∀ c ∈ natChars m, c.isDigit = true := by
  intro c hc
  rw [natChars_eq] at hc
  by_cases hm : m = 0
  · subst hm; simp at hc; subst hc; decide
  · simp only [hm, if_false, List.mem_map, List.mem_reverse] at hc
    obtain ⟨d, hd, rfl⟩ := hc
    exact isDigit_digitChar (Nat.digits_lt_base (by norm_num) hd)

theorem natChars_ne_nil (m : Nat) : natChars m ≠ [] := by
  rw [natChars_eq]
  by_cases hm : m = 0
  · subst hm; simp
  · simp only [hm, if_false, ne_eq, List.map_eq_nil_iff, List.reverse_eq_nil_iff]
    exact Nat.digits_ne_nil_iff_ne_zero.mpr hm

theorem lexNat_natChars (m : Nat) {rest : List Char} (hr : noDigitHead rest) :
    lexNat (natChars m ++ rest) = some (m, rest) := by
  have ht := takeWhile_digits_append (natChars_all_digits m) hr
  have hd := dropWhile_digits_append (natChars_all_digits m) hr
  by_cases hm : m = 0
  · subst hm
    unfold lexNat
    simp only [ht, hd]
    simp [natChars_eq, digToNat]
  · have hdlt : ∀ d ∈ Nat.digits 10 m, d < 10 :=
      fun d hd => Nat.digits_lt_base (by norm_num) hd
    have hval := foldl_digits_val (Nat.digits 10 m) hdlt
    have hne : Nat.digits 10 m ≠ [] := Nat.digits_ne_nil_iff_ne_zero.mpr hm
    rcases List.eq_nil_or_concat (Nat.digits 10 m) with hnil | ⟨L, b, hLb0⟩
    · exact absurd hnil hne
    · have hLb : Nat.digits 10 m = L ++ [b] := by rw [hLb0, List.concat_eq_append]
      have hb0 : b ≠ 0 := by
        intro hb
        subst hb
        apply Nat.getLast_digit_ne_zero 10 hm
        have haux : ∀ (l : List Nat) (hl : l ≠ []) (L' : List Nat),
            l = L' ++ [0] → l.getLast hl = 0 := by
          intro l hl L' hEq
          subst hEq
          exact List.getLast_concat _
        exact haux _ (Nat.digits_ne_nil_iff_ne_zero.mpr hm) L hLb
      have hblt : b < 10 := hdlt b (by
        rw [hLb]
        exact List.mem_append_right _ (by simp))
      have hshape : (Nat.digits 10 m).reverse.map digitChar =
          digitChar b :: L.reverse.map digitChar := by
        rw [hLb, List.reverse_append]
        simp
      have hnc : natChars m = digitChar b :: L.reverse.map digitChar := by
        rw [natChars_eq, if_neg hm, hshape]
      have hfold : (natChars m).foldl (fun a c => 10 * a + digToNat c) 0 = m := by
        rw [natChars_eq, if_neg hm, hval, Nat.ofDigits_digits]
      unfold lexNat
      rw [ht, hd, hnc]
      show (if digitChar b = '0' ∧ (List.map digitChar L.reverse) ≠ [] then none
        else some (List.foldl (fun a c => 10 * a + digToNat c) 0
          (digitChar b :: List.map digitChar L.reverse), rest)) = some (m, rest)
      rw [if_neg (by simp [digitChar_ne_zero hb0 hblt])]
      rw [← hnc, hfold]

theorem lexInt_not_minus {c : Char} {cs' : List Char} (h : c ≠ '-') :
    lexInt (c :: cs') = (lexNat (c :: cs')).map (fun p => ((p.1 : Int), p.2)) := by
  unfold lexInt
  split
  · next heq => exact absurd (by injection heq) h
  · rfl

/-- Rendering of an integer followed by a non-digit lexes back to that integer. -/
theorem lexInt_intChars (n : Int) {rest : List Char} (hr : noDigitHead rest) :
    lexInt (intChars n ++ rest) = some (n, rest) := by
  by_cases hn : n < 0
  · have h1 : intChars n = '-' :: natChars n.natAbs := by simp [intChars, hn]
    rw [h1, List.cons_append]
    show (lexNat (natChars n.natAbs ++ rest)).map (fun p => (-(p.1 : Int), p.2)) = _
    rw [lexNat_natChars n.natAbs hr]
    have habs : ((n.natAbs : Int)) = -n := by omega
    simp [habs]
  · have h1 : intChars n = natChars n.toNat := by simp [intChars, hn]
    rcases hx : natChars n.toNat with _ | ⟨c, cs⟩
    · exact absurd hx (natChars_ne_nil _)
    · have hcdig : c.isDigit = true :=
        natChars_all_digits n.toNat c (by rw [hx]; exact List.mem_cons_self _ _)
      have hcm : c ≠ '-' := by
        intro hcontr; rw [hcontr] at hcdig; exact absurd hcdig (by decide)
      rw [h1, hx, List.cons_append, lexInt_not_minus hcm, ← List.cons_append, ← hx,
        lexNat_natChars n.toNat hr]
      have : ((n.toNat : Int)) = n := by omega
      simp [this]

/-! ## String rendering and lexing

`JSON.stringify` escapes quote, backslash and control characters;
`JSON.parse` reads the JSON string grammar including `\u` escapes. -/

def hexDigitChar (n : Nat) : Char :=
  if n < 10 then Char.ofNat (48 + n) else Char.ofNat (87 + n)

/-- How `JSON.stringify` escapes one character inside a string literal. -/
def escCh (c : Char) : List Char :=
  if c = '"' then ['\\', '"']
  else if c = '\\' then ['\\', '\\']
  else if c = '\x08' then ['\\', 'b']
  else if c = '\x09' then ['\\', 't']
  else if c = '\x0a' then ['\\', 'n']
  else if c = '\x0c' then ['\\', 'f']
  else if c = '\x0d' then ['\\', 'r']
  else if c.toNat < 32 then
    ['\\', 'u', '0', '0', hexDigitChar (c.toNat / 16), hexDigitChar (c.toNat % 16)]
  else [c]

/-- A JSON string literal: quote, escaped body, quote. -/
def strChars (s : String) : List Char := '"' :: (s.data.flatMap escCh ++ ['"'])

def hexVal (c : Char) : Option Nat :=
  if '0' ≤ c ∧ c ≤ '9' then some (c.toNat - 48)
  else if 'a' ≤ c ∧ c ≤ 'f' then some (c.toNat - 87)
  else if 'A' ≤ c ∧ c ≤ 'F' then some (c.toNat - 55)
  else none

/-- Single-character escapes accepted by `JSON.parse`. -/
def escUn (e : Char) : Option Char :=
  if e = '"' then some '"'
  else if e = '\\' then some '\\'
  else if e = '/' then some '/'
  else if e = 'b' then some '\x08'
  else if e = 'f' then some '\x0c'
  else if e = 'n' then some '\x0a'
  else if e = 'r' then some '\x0d'
  else if e = 't' then some '\x09'
  else none

/-
Lexes a JSON string body after the opening quote, returning the decoded
characters and the input after the closing quote.  A `\u` escape denoting a
high surrogate must be followed by a low surrogate escape (a lone surrogate
is rejected; see the modeling notes).  The two components of `lexPair` are
the string-body lexer and the handler for the four hex digits after `\u`;
making them one structurally fuel-indexed function keeps every unfolding
step definitional.
-/
def lexPair : Nat →
    (List Char → Option (List Char × List Char)) ×
    (List Char → Option (List Char × List Char))
  | 0 => (fun _ => none, fun _ => none)
  | fuel + 1 =>
    ( fun cs =>
        match cs with
        | [] => none
        | c :: rest =>
          if c = '"' then some ([], rest)
          else if c = '\\' then
            match rest with
            | [] => none
            | e :: rest1 =>
              if e = 'u' then (lexPair fuel).2 rest1
              else
                match escUn e with
                | some ec => ((lexPair fuel).1 rest1).map (fun p => (ec :: p.1, p.2))
                | none => none
          else if c.toNat < 32 then none
          else ((lexPair fuel).1 rest).map (fun p => (c :: p.1, p.2)),
      fun cs =>
        match cs with
        | h1 :: h2 :: h3 :: h4 :: rest2 =>
          match hexVal h1, hexVal h2, hexVal h3, hexVal h4 with
          | some a, some b, some c2, some d =>
            if 0xD800 ≤ ((a * 16 + b) * 16 + c2) * 16 + d ∧
                ((a * 16 + b) * 16 + c2) * 16 + d < 0xDC00 then
              match rest2 with
              | e2 :: u2 :: g1 :: g2 :: g3 :: g4 :: rest3 =>
                if e2 = '\\' ∧ u2 = 'u' then
                  match hexVal g1, hexVal g2, hexVal g3, hexVal g4 with
                  | some a2, some b2, some cc2, some d2 =>
                    if 0xDC00 ≤ ((a2 * 16 + b2) * 16 + cc2) * 16 + d2 ∧
                        ((a2 * 16 + b2) * 16 + cc2) * 16 + d2 < 0xE000 then
                      ((lexPair fuel).1 rest3).map (fun p =>
                        (Char.ofNat (0x10000 +
                          (((a * 16 + b) * 16 + c2) * 16 + d - 0xD800) * 0x400 +
                          (((a2 * 16 + b2) * 16 + cc2) * 16 + d2 - 0xDC00)) :: p.1, p.2))
                    else none
                  | _, _, _, _ => none
                else none
              | _ => none
            else if 0xDC00 ≤ ((a * 16 + b) * 16 + c2) * 16 + d ∧
                ((a * 16 + b) * 16 + c2) * 16 + d < 0xE000 then none
            else ((lexPair fuel).1 rest2).map (fun p =>
              (Char.ofNat (((a * 16 + b) * 16 + c2) * 16 + d) :: p.1, p.2))
          | _, _, _, _ => none
        | _ => none )

def lexStrF (fuel : Nat) (cs : List Char) : Option (List Char × List Char) :=
  (lexPair fuel).1 cs

/-- The string-body lexer with enough fuel for its input. -/
def lexStr (cs : List Char) : Option (List Char × List Char) :=
  lexStrF (cs.length + 1) cs

theorem hexVal_hexDigitChar {n : Nat} (h : n < 16) : hexVal (hexDigitChar n) = some n := by
  interval_cases n <;> decide

theorem lexStrF_quote (fuel : Nat) (rest : List Char) :
    lexStrF (fuel + 1) ('"' :: rest) = some ([], rest) := rfl

theorem lexStrF_ord {c : Char} (h1 : c ≠ '"') (h2 : c ≠ '\\') (h3 : ¬ c.toNat < 32)
    (fuel : Nat) (cs : List Char) :
    lexStrF (fuel + 1) (c :: cs) = (lexStrF fuel cs).map (fun p => (c :: p.1, p.2)) := by
  simp [lexStrF, lexPair, h1, h2, h3]

theorem lexStrF_esc {e ec : Char} (he : e ≠ 'u') (hc : escUn e = some ec)
    (fuel : Nat) (cs : List Char) :
    lexStrF (fuel + 1) ('\\' :: e :: cs) =
      (lexStrF fuel cs).map (fun p => (ec :: p.1, p.2)) := by
  simp [lexStrF, lexPair, he, hc]

theorem lexStrF_hex {h1 h2 h3 h4 : Char} {a b c2 d : Nat}
    (e1 : hexVal h1 = some a) (e2 : hexVal h2 = some b) (e3 : hexVal h3 = some c2)
    (e4 : hexVal h4 = some d) (hlow : ((a * 16 + b) * 16 + c2) * 16 + d < 0xD800)
    (fuel : Nat) (cs : List Char) :
    lexStrF (fuel + 2) ('\\' :: 'u' :: h1 :: h2 :: h3 :: h4 :: cs) =
      (lexStrF fuel cs).map (fun p =>
        (Char.ofNat (((a * 16 + b) * 16 + c2) * 16 + d) :: p.1, p.2)) := by
  have hn1 : ¬ (0xD800 ≤ ((a * 16 + b) * 16 + c2) * 16 + d ∧
      ((a * 16 + b) * 16 + c2) * 16 + d < 0xDC00) := by omega
  have hn2 : ¬ (0xDC00 ≤ ((a * 16 + b) * 16 + c2) * 16 + d ∧
      ((a * 16 + b) * 16 + c2) * 16 + d < 0xE000) := by omega
  show (lexPair (fuel + 2)).1 _ = _
  rw [lexPair]
  simp only []
  rw [show ((lexPair (fuel + 1)).2 (h1 :: h2 :: h3 :: h4 :: cs)) =
    ((lexPair fuel).1 cs).map (fun p =>
      (Char.ofNat (((a * 16 + b) * 16 + c2) * 16 + d) :: p.1, p.2)) from by
      rw [lexPair]
      simp [e1, e2, e3, e4, hn1, hn2]]
  rfl

theorem escCh_length_pos (c : Char) : 1 ≤ (escCh c).length := by
  unfold escCh
  repeat' split
  all_goals simp

/-- Decoding inverts `JSON.stringify` string escaping: the escaped body of a
character list followed by a closing quote lexes back to that list, given
fuel covering the body. -/
theorem lexStrF_escaped : ∀ (l : List Char) (fuel : Nat) (rest : List Char),
    (l.flatMap escCh).length + 1 ≤ fuel →
    lexStrF fuel (l.flatMap escCh ++ '"' :: rest) = some (l, rest) := by
  intro l
  induction l with
  | nil =>
    intro fuel rest hf
    obtain ⟨f, rfl⟩ : ∃ f, fuel = f + 1 := ⟨fuel - 1, by omega⟩
    simp [lexStrF_quote]
  | cons c tl ih =>
    intro fuel rest hf
    rw [List.flatMap_cons, List.length_append] at hf
    rw [List.flatMap_cons, List.append_assoc]
    by_cases hq : c = '"'
    · subst hq
      obtain ⟨f, rfl⟩ : ∃ f, fuel = f + 1 := ⟨fuel - 1, by omega⟩
      rw [show escCh '"' = ['\\', '"'] from rfl]
      rw [List.cons_append, List.cons_append, List.nil_append,
        @lexStrF_esc '"' '"' (by decide) rfl f _, ih f rest (by simp [escCh] at hf ⊢; omega)]
      rfl
    · by_cases hb : c = '\\'
      · subst hb
        obtain ⟨f, rfl⟩ : ∃ f, fuel = f + 1 := ⟨fuel - 1, by omega⟩
        rw [show escCh '\\' = ['\\', '\\'] from rfl]
        rw [List.cons_append, List.cons_append, List.nil_append,
          @lexStrF_esc '\\' '\\' (by decide) rfl f _, ih f rest (by simp [escCh] at hf ⊢; omega)]
        rfl
      · by_cases h08 : c = '\x08'
        · subst h08
          obtain ⟨f, rfl⟩ : ∃ f, fuel = f + 1 := ⟨fuel - 1, by omega⟩
          rw [show escCh '\x08' = ['\\', 'b'] from rfl]
          rw [List.cons_append, List.cons_append, List.nil_append,
            @lexStrF_esc 'b' '\x08' (by decide) rfl f _, ih f rest (by simp [escCh] at hf ⊢; omega)]
          rfl
        · by_cases h09 : c = '\x09'
          · subst h09
            obtain ⟨f, rfl⟩ : ∃ f, fuel = f + 1 := ⟨fuel - 1, by omega⟩
            rw [show escCh '\x09' = ['\\', 't'] from rfl]
            rw [List.cons_append, List.cons_append, List.nil_append,
              @lexStrF_esc 't' '\x09' (by decide) rfl f _, ih f rest (by simp [escCh] at hf ⊢; omega)]
            rfl
          · by_cases h0a : c = '\x0a'
            · subst h0a
              obtain ⟨f, rfl⟩ : ∃ f, fuel = f + 1 := ⟨fuel - 1, by omega⟩
              rw [show escCh '\x0a' = ['\\', 'n'] from rfl]
              rw [List.cons_append, List.cons_append, List.nil_append,
                @lexStrF_esc 'n' '\x0a' (by decide) rfl f _, ih f rest (by simp [escCh] at hf ⊢; omega)]
              rfl
            · by_cases h0c : c = '\x0c'
              · subst h0c
                obtain ⟨f, rfl⟩ : ∃ f, fuel = f + 1 := ⟨fuel - 1, by omega⟩
                rw [show escCh '\x0c' = ['\\', 'f'] from rfl]
                rw [List.cons_append, List.cons_append, List.nil_append,
                  @lexStrF_esc 'f' '\x0c' (by decide) rfl f _, ih f rest (by simp [escCh] at hf ⊢; omega)]
                rfl
              · by_cases h0d : c = '\x0d'
                · subst h0d
                  obtain ⟨f, rfl⟩ : ∃ f, fuel = f + 1 := ⟨fuel - 1, by omega⟩
                  rw [show escCh '\x0d' = ['\\', 'r'] from rfl]
                  rw [List.cons_append, List.cons_append, List.nil_append,
                    @lexStrF_esc 'r' '\x0d' (by decide) rfl f _, ih f rest (by simp [escCh] at hf ⊢; omega)]
                  rfl
                · by_cases hctl : c.toNat < 32
                  · have hesc : escCh c = ['\\', 'u', '0', '0',
                        hexDigitChar (c.toNat / 16), hexDigitChar (c.toNat % 16)] := by
                      rw [escCh, if_neg hq, if_neg hb, if_neg h08, if_neg h09, if_neg h0a,
                        if_neg h0c, if_neg h0d, if_pos hctl]
                    rw [hesc] at hf ⊢
                    obtain ⟨f, rfl⟩ : ∃ f, fuel = f + 2 := ⟨fuel - 2, by simp at hf; omega⟩
                    simp only [List.cons_append, List.nil_append]
                    have hv0 : hexVal '0' = some 0 := by decide
                    have hvh : hexVal (hexDigitChar (c.toNat / 16)) = some (c.toNat / 16) :=
                      hexVal_hexDigitChar (by omega)
                    have hvl : hexVal (hexDigitChar (c.toNat % 16)) = some (c.toNat % 16) :=
                      hexVal_hexDigitChar (by omega)
                    rw [lexStrF_hex hv0 hv0 hvh hvl (by omega) f,
                      ih f rest (by simp at hf ⊢; omega)]
                    have hcode : ((0 * 16 + 0) * 16 + c.toNat / 16) * 16 + c.toNat % 16
                        = c.toNat := by omega
                    rw [hcode]
                    simp [Char.ofNat_toNat]
                  · have hesc : escCh c = [c] := by
                      rw [escCh, if_neg hq, if_neg hb, if_neg h08, if_neg h09, if_neg h0a,
                        if_neg h0c, if_neg h0d, if_neg hctl]
                    rw [hesc] at hf ⊢
                    obtain ⟨f, rfl⟩ : ∃ f, fuel = f + 1 := ⟨fuel - 1, by omega⟩
                    simp only [List.cons_append, List.nil_append]
                    rw [lexStrF_ord hq hb hctl f, ih f rest (by simp at hf ⊢; omega)]
                    rfl

/-- The wrapper always carries enough fuel. -/
theorem lexStr_escaped (l : List Char) (rest : List Char) :
    lexStr (l.flatMap escCh ++ '"' :: rest) = some (l, rest) := by
  apply lexStrF_escaped
  simp only [List.length_append, List.length_cons]
  omega

/-! ## Whitespace -/

def isWsChar (c : Char) : Bool := c = ' ' || c = '\n' || c = '\t' || c = '\r'

def skipWs : List Char → List Char
  | [] => []
  | c :: cs => if isWsChar c then skipWs cs else c :: cs

theorem skipWs_append {ws : List Char} (h : ∀ c ∈ ws, isWsChar c = true)
    (cs : List Char) : skipWs (ws ++ cs) = skipWs cs := by
  induction ws with
  | nil => rfl
  | cons c tl ih =>
    have hc : isWsChar c = true := h c (List.mem_cons_self _ _)
    simp [skipWs, hc, ih (fun x hx => h x (List.mem_cons_of_mem _ hx))]

theorem skipWs_not {c : Char} (h : isWsChar c = false) (cs : List Char) :
    skipWs (c :: cs) = c :: cs := by
  simp [skipWs, h]

/-! ## Serialization: the `JSON.stringify` builtin

One emitter family covers both renderings the source uses:
`emitV false 0` is `JSON.stringify(v)` (compact, used by `injectBlockScenario`
and `compareScenarios`) and `emitV true 0` is `JSON.stringify(v, null, 2)`
(two-space pretty printing, used when extraction writes `backup.json`,
`metadata.json` and `data.json`). -/

def wsGap (g : Bool) (d : Nat) : List Char :=
  if g then '\n' :: List.replicate (2 * d) ' ' else []

def colonGap (g : Bool) : List Char := if g then [' '] else []

mutual

def emitV (g : Bool) (d : Nat) : Jval → List Char
  | .jnull => ['n', 'u', 'l', 'l']
  | .jbool true => ['t', 'r', 'u', 'e']
  | .jbool false => ['f', 'a', 'l', 's', 'e']
  | .jnum n => intChars n
  | .jstr s => strChars s
  | .jarr .nil => ['[', ']']
  | .jarr (.cons v a) =>
    '[' :: (wsGap g (d + 1) ++ emitV g (d + 1) v ++ emitElems g (d + 1) a ++
      wsGap g d ++ [']'])
  | .jobj .nil => ['\x7b', '\x7d']
  | .jobj (.cons k v o) =>
    '\x7b' :: (wsGap g (d + 1) ++ strChars k ++ ':' :: (colonGap g ++ emitV g (d + 1) v ++
      emitMems g (d + 1) o ++ wsGap g d ++ ['\x7d']))

/-- Every element after the first, each preceded by a comma and the gap. -/
def emitElems (g : Bool) (d : Nat) : Jarr → List Char
  | .nil => []
  | .cons v a => ',' :: (wsGap g d ++ emitV g d v ++ emitElems g d a)

/-- Every member after the first, each preceded by a comma and the gap. -/
def emitMems (g : Bool) (d : Nat) : Jobj → List Char
  | .nil => []
  | .cons k v o =>
    ',' :: (wsGap g d ++ strChars k ++ ':' :: (colonGap g ++ emitV g d v ++ emitMems g d o))

end

/-- `JSON.stringify(v)`. -/
def stringifyC (v : Jval) : String := String.mk (emitV false 0 v)

/-- `JSON.stringify(v, null, 2)`. -/
def stringifyP (v : Jval) : String := String.mk (emitV true 0 v)

/-! ## Parsing: the `JSON.parse` builtin

A fuel-indexed recursive-descent parser.  All three entry points are the
components of one structurally recursive function of the fuel, so that one
step of unfolding is definitional. -/

def parseTriple : Nat →
    (List Char → Option (Jval × List Char)) ×
    (List Char → Option (Jarr × List Char)) ×
    (List Char → Option (Jobj × List Char))
  | 0 => (fun _ => none, fun _ => none, fun _ => none)
  | fuel + 1 =>
    ( fun cs =>
        match skipWs cs with
        | [] => none
        | c :: rest =>
          if c = 'n' then
            match rest with
            | 'u' :: 'l' :: 'l' :: r => some (Jval.jnull, r)
            | _ => none
          else if c = 't' then
            match rest with
            | 'r' :: 'u' :: 'e' :: r => some (Jval.jbool true, r)
            | _ => none
          else if c = 'f' then
            match rest with
            | 'a' :: 'l' :: 's' :: 'e' :: r => some (Jval.jbool false, r)
            | _ => none
          else if c = '"' then
            (lexStr rest).map (fun p => (Jval.jstr (String.mk p.1), p.2))
          else if c = '[' then
            match skipWs rest with
            | ']' :: r2 => some (Jval.jarr Jarr.nil, r2)
            | _ => ((parseTriple fuel).2.1 rest).map (fun p => (Jval.jarr p.1, p.2))
          else if c = '\x7b' then
            match skipWs rest with
            | '\x7d' :: r2 => some (Jval.jobj Jobj.nil, r2)
            | _ => ((parseTriple fuel).2.2 rest).map (fun p => (Jval.jobj p.1, p.2))
          else if c = '-' ∨ c.isDigit then
            (lexInt (c :: rest)).map (fun p => (Jval.jnum p.1, p.2))
          else none,
      fun cs =>
        match (parseTriple fuel).1 cs with
        | none => none
        | some (v, r) =>
          match skipWs r with
          | ',' :: r2 =>
            match (parseTriple fuel).2.1 r2 with
            | some (a, r3) => some (Jarr.cons v a, r3)
            | none => none
          | ']' :: r2 => some (Jarr.cons v Jarr.nil, r2)
          | _ => none,
      fun cs =>
        match skipWs cs with
        | '"' :: r =>
          match lexStr r with
          | none => none
          | some (kchars, r1) =>
            match skipWs r1 with
            | ':' :: r2 =>
              match (parseTriple fuel).1 r2 with
              | none => none
              | some (v, r3) =>
                match skipWs r3 with
                | ',' :: r4 =>
                  match (parseTriple fuel).2.2 r4 with
                  | some (o, r5) => some (Jobj.cons (String.mk kchars) v o, r5)
                  | none => none
                | '\x7d' :: r4 => some (Jobj.cons (String.mk kchars) v Jobj.nil, r4)
                | _ => none
            | _ => none
        | _ => none )

def parseVal (fuel : Nat) (cs : List Char) : Option (Jval × List Char) :=
  (parseTriple fuel).1 cs

def parseElems (fuel : Nat) (cs : List Char) : Option (Jarr × List Char) :=
  (parseTriple fuel).2.1 cs

def parseMems (fuel : Nat) (cs : List Char) : Option (Jobj × List Char) :=
  (parseTriple fuel).2.2 cs

/-- `JSON.parse`: the whole text must be one value with only trailing
whitespace. -/
def jsonParse (s : String) : Option Jval :=
  match parseVal (s.length + 1) s.data with
  | some (v, rest) =>
    match skipWs rest with
    | [] => some v
    | _ => none
  | none => none

/-! ## Fuel accounting for the round-trip -/

mutual

def fcostV : Jval → Nat
  | .jnull => 1
  | .jbool _ => 1
  | .jnum _ => 1
  | .jstr _ => 1
  | .jarr a => 1 + fcostA a
  | .jobj o => 1 + fcostO o

def fcostA : Jarr → Nat
  | .nil => 0
  | .cons v a => 1 + fcostV v + fcostA a

def fcostO : Jobj → Nat
  | .nil => 0
  | .cons _ v o => 1 + fcostV v + fcostO o

end

/-! ## Round-trip: helper lemmas -/

theorem strMkData (s : String) : String.mk s.data = s := by
  cases s
  rfl

theorem wsGap_ws (g : Bool) (d : Nat) : ∀ c ∈ wsGap g d, isWsChar c = true := by
  intro c hc
  cases g with
  | false => simp [wsGap] at hc
  | true =>
    simp [wsGap] at hc
    rcases hc with h | ⟨-, h⟩ <;> (subst h; decide)

theorem colonGap_ws (g : Bool) : ∀ c ∈ colonGap g, isWsChar c = true := by
  intro c hc
  cases g with
  | false => simp [colonGap] at hc
  | true => simp [colonGap] at hc; subst hc; decide

theorem parseVal_ws {ws : List Char} (h : ∀ c ∈ ws, isWsChar c = true)
    (fuel : Nat) (cs : List Char) : parseVal fuel (ws ++ cs) = parseVal fuel cs := by
  cases fuel with
  | zero => rfl
  | succ f =>
    show (parseTriple (f + 1)).1 (ws ++ cs) = (parseTriple (f + 1)).1 cs
    rw [parseTriple]
    simp only [skipWs_append h]

/-- Character-class facts used to steer the parser's dispatch on a digit head. -/
theorem isDigit_props {c : Char} (h : c.isDigit = true) :
    isWsChar c = false ∧ c ≠ ']' ∧ c ≠ '\x7d' ∧ c ≠ 'n' ∧ c ≠ 't' ∧ c ≠ 'f' ∧
      c ≠ '"' ∧ c ≠ '[' ∧ c ≠ '\x7b' ∧ c ≠ ',' ∧ c ≠ ':' ∧ c ≠ '\\' ∧
      ¬ c.toNat < 32 := by
  have hrange : 48 ≤ c.toNat ∧ c.toNat ≤ 57 := by
    simp only [Char.isDigit, decide_eq_true_eq, Bool.and_eq_true] at h
    obtain ⟨h1, h2⟩ := h
    constructor
    · exact h1
    · exact h2
  refine ⟨?_, ?_, ?_, ?_, ?_, ?_, ?_, ?_, ?_, ?_, ?_, ?_, ?_⟩
  · cases hw : isWsChar c
    · rfl
    · exfalso
      simp only [isWsChar, Bool.or_eq_true, decide_eq_true_eq] at hw
      rcases hw with ((h' | h') | h') | h' <;> (subst h'; simp at hrange)
  all_goals first
    | (intro h'; subst h'; simp at hrange)
    | omega

theorem emitV_head (g : Bool) (d : Nat) (v : Jval) :
    ∃ c tl, emitV g d v = c :: tl ∧ isWsChar c = false ∧ c ≠ ']' ∧ c ≠ '\x7d' := by
  cases v with
  | jnull => exact ⟨'n', _, rfl, by decide, by decide, by decide⟩
  | jbool b =>
    cases b
    · exact ⟨'f', _, rfl, by decide, by decide, by decide⟩
    · exact ⟨'t', _, rfl, by decide, by decide, by decide⟩
  | jnum n =>
    by_cases hn : n < 0
    · refine ⟨'-', natChars n.natAbs, ?_, by decide, by decide, by decide⟩
      simp [emitV, intChars, hn]
    · rcases hx : natChars n.toNat with _ | ⟨c, tl⟩
      · exact absurd hx (natChars_ne_nil _)
      · have hcd : c.isDigit = true :=
          natChars_all_digits n.toNat c (by rw [hx]; exact List.mem_cons_self _ _)
        obtain ⟨hws, hrb, hcb, _⟩ := isDigit_props hcd
        refine ⟨c, tl, ?_, hws, hrb, hcb⟩
        simp [emitV, intChars, hn, hx]
  | jstr s => exact ⟨'"', _, rfl, by decide, by decide, by decide⟩
  | jarr a => cases a with
    | nil => exact ⟨'[', _, rfl, by decide, by decide, by decide⟩
    | cons v2 a2 => exact ⟨'[', _, rfl, by decide, by decide, by decide⟩
  | jobj o => cases o with
    | nil => exact ⟨'\x7b', _, rfl, by decide, by decide, by decide⟩
    | cons k2 v2 o2 => exact ⟨'\x7b', _, rfl, by decide, by decide, by decide⟩

theorem noDigitHead_elems (g : Bool) (d d' : Nat) (a : Jarr) (rest : List Char) :
    noDigitHead (emitElems g d a ++ (wsGap g d' ++ (']' :: rest))) := by
  cases a with
  | nil =>
    cases g with
    | false => simp [emitElems, wsGap, noDigitHead]
    | true => simp [emitElems, wsGap, noDigitHead]
  | cons v2 a2 => simp [emitElems, noDigitHead]

theorem noDigitHead_mems (g : Bool) (d d' : Nat) (o : Jobj) (rest : List Char) :
    noDigitHead (emitMems g d o ++ (wsGap g d' ++ ('\x7d' :: rest))) := by
  cases o with
  | nil =>
    cases g with
    | false => simp [emitMems, wsGap, noDigitHead]
    | true => simp [emitMems, wsGap, noDigitHead]
  | cons k2 v2 o2 => simp [emitMems, noDigitHead]

theorem parseVal_null (fuel : Nat) (rest : List Char) :
    parseVal (fuel + 1) ('n' :: 'u' :: 'l' :: 'l' :: rest) = some (Jval.jnull, rest) := rfl

theorem parseVal_true (fuel : Nat) (rest : List Char) :
    parseVal (fuel + 1) ('t' :: 'r' :: 'u' :: 'e' :: rest) = some (Jval.jbool true, rest) := rfl

theorem parseVal_false (fuel : Nat) (rest : List Char) :
    parseVal (fuel + 1) ('f' :: 'a' :: 'l' :: 's' :: 'e' :: rest) =
      some (Jval.jbool false, rest) := rfl

theorem parseVal_arrNil (fuel : Nat) (rest : List Char) :
    parseVal (fuel + 1) ('[' :: ']' :: rest) = some (Jval.jarr Jarr.nil, rest) := rfl

theorem parseVal_objNil (fuel : Nat) (rest : List Char) :
    parseVal (fuel + 1) ('\x7b' :: '\x7d' :: rest) = some (Jval.jobj Jobj.nil, rest) := rfl

theorem parseVal_str (s : String) (fuel : Nat) (rest : List Char) :
    parseVal (fuel + 1) (strChars s ++ rest) = some (Jval.jstr s, rest) := by
  show (parseTriple (fuel + 1)).1 _ = _
  rw [parseTriple]
  simp only [strChars, List.cons_append]
  rw [skipWs_not (by decide)]
  simp only [show (('"' : Char) = 'n') = False from by decide,
    show (('"' : Char) = 't') = False from by decide,
    show (('"' : Char) = 'f') = False from by decide, if_false, if_pos rfl]
  rw [List.append_assoc, List.singleton_append, lexStr_escaped]
  simp [strMkData]

theorem parseVal_num (n : Int) (fuel : Nat) {rest : List Char} (hr : noDigitHead rest) :
    parseVal (fuel + 1) (intChars n ++ rest) = some (Jval.jnum n, rest) := by
  have hlex := lexInt_intChars n hr
  by_cases hn : n < 0
  · have hshape : intChars n = '-' :: natChars n.natAbs := by simp [intChars, hn]
    show (parseTriple (fuel + 1)).1 _ = _
    rw [parseTriple]
    simp only [hshape, List.cons_append]
    rw [skipWs_not (by decide)]
    simp only [show (('-' : Char) = 'n') = False from by decide,
      show (('-' : Char) = 't') = False from by decide,
      show (('-' : Char) = 'f') = False from by decide,
      show (('-' : Char) = '"') = False from by decide,
      show (('-' : Char) = '[') = False from by decide,
      show (('-' : Char) = '\x7b') = False from by decide, if_false]
    rw [if_pos (Or.inl trivial)]
    rw [← List.cons_append, ← hshape, hlex]
    rfl
  · rcases hx : natChars n.toNat with _ | ⟨c, tl⟩
    · exact absurd hx (natChars_ne_nil _)
    · have hshape : intChars n = c :: tl := by simp [intChars, hn, hx]
      have hcd : c.isDigit = true :=
        natChars_all_digits n.toNat c (by rw [hx]; exact List.mem_cons_self _ _)
      obtain ⟨hws, _, _, hnn, hnt, hnf, hnq, hnbr, hnob, _, _, _, _⟩ := isDigit_props hcd
      show (parseTriple (fuel + 1)).1 _ = _
      rw [parseTriple]
      simp only [hshape, List.cons_append]
      rw [skipWs_not hws]
      simp only [if_neg hnn, if_neg hnt, if_neg hnf, if_neg hnq, if_neg hnbr, if_neg hnob]
      rw [if_pos (Or.inr hcd)]
      rw [← List.cons_append, ← hshape, hlex]
      rfl

theorem parseVal_arrCons {cs : List Char} {c : Char} {tl : List Char}
    (hsk : skipWs cs = c :: tl) (hc : c ≠ ']') (fuel : Nat) :
    parseVal (fuel + 1) ('[' :: cs) =
      (parseElems fuel cs).map (fun p => (Jval.jarr p.1, p.2)) := by
  show (parseTriple (fuel + 1)).1 _ = _
  rw [parseTriple]
  simp only []
  rw [skipWs_not (by decide)]
  simp only []
  rw [if_neg (show ¬(('[' : Char) = 'n') from by decide),
    if_neg (show ¬(('[' : Char) = 't') from by decide),
    if_neg (show ¬(('[' : Char) = 'f') from by decide),
    if_neg (show ¬(('[' : Char) = '"') from by decide),
    if_pos (show True from trivial), hsk]
  split
  · rename_i r2 heq
    injection heq with h1 h2
    exact absurd h1 hc
  · rfl

theorem parseVal_objCons {cs : List Char} {c : Char} {tl : List Char}
    (hsk : skipWs cs = c :: tl) (hc : c ≠ '\x7d') (fuel : Nat) :
    parseVal (fuel + 1) ('\x7b' :: cs) =
      (parseMems fuel cs).map (fun p => (Jval.jobj p.1, p.2)) := by
  show (parseTriple (fuel + 1)).1 _ = _
  rw [parseTriple]
  simp only []
  rw [skipWs_not (by decide)]
  simp only []
  rw [if_neg (show ¬(('\x7b' : Char) = 'n') from by decide),
    if_neg (show ¬(('\x7b' : Char) = 't') from by decide),
    if_neg (show ¬(('\x7b' : Char) = 'f') from by decide),
    if_neg (show ¬(('\x7b' : Char) = '"') from by decide),
    if_neg (show ¬(('\x7b' : Char) = '[') from by decide),
    if_pos (show True from trivial), hsk]
  split
  · rename_i r2 heq
    injection heq with h1 h2
    exact absurd h1 hc
  · rfl

/-! ## Round-trip: parsing inverts serialization -/

mutual

theorem parseVal_emit : ∀ (v : Jval) (g : Bool) (d fuel : Nat) (rest : List Char),
    fcostV v ≤ fuel → noDigitHead rest →
    parseVal fuel (emitV g d v ++ rest) = some (v, rest)
  | .jnull, g, d, fuel, rest, hf, _ => by
    obtain ⟨f, rfl⟩ : ∃ f, fuel = f + 1 := ⟨fuel - 1, by simp [fcostV] at hf; omega⟩
    exact parseVal_null f rest
  | .jbool true, g, d, fuel, rest, hf, _ => by
    obtain ⟨f, rfl⟩ : ∃ f, fuel = f + 1 := ⟨fuel - 1, by simp [fcostV] at hf; omega⟩
    exact parseVal_true f rest
  | .jbool false, g, d, fuel, rest, hf, _ => by
    obtain ⟨f, rfl⟩ : ∃ f, fuel = f + 1 := ⟨fuel - 1, by simp [fcostV] at hf; omega⟩
    exact parseVal_false f rest
  | .jnum n, g, d, fuel, rest, hf, hr => by
    obtain ⟨f, rfl⟩ : ∃ f, fuel = f + 1 := ⟨fuel - 1, by simp [fcostV] at hf; omega⟩
    exact parseVal_num n f hr
  | .jstr s, g, d, fuel, rest, hf, _ => by
    obtain ⟨f, rfl⟩ : ∃ f, fuel = f + 1 := ⟨fuel - 1, by simp [fcostV] at hf; omega⟩
    exact parseVal_str s f rest
  | .jarr .nil, g, d, fuel, rest, hf, _ => by
    obtain ⟨f, rfl⟩ : ∃ f, fuel = f + 1 := ⟨fuel - 1, by simp [fcostV] at hf; omega⟩
    exact parseVal_arrNil f rest
  | .jarr (.cons v a), g, d, fuel, rest, hf, _ => by
    obtain ⟨f, rfl⟩ : ∃ f, fuel = f + 1 := ⟨fuel - 1, by simp [fcostV] at hf; omega⟩
    have hf' : 1 + fcostV v + fcostA a ≤ f := by simp [fcostV, fcostA] at hf; omega
    obtain ⟨c, tl0, hEv, hws, hcrb, _⟩ := emitV_head g (d + 1) v
    have hshape : emitV g d (Jval.jarr (Jarr.cons v a)) ++ rest =
        '[' :: (wsGap g (d + 1) ++ (emitV g (d + 1) v ++ (emitElems g (d + 1) a ++
          (wsGap g d ++ (']' :: rest))))) := by
      show ('[' :: (wsGap g (d + 1) ++ emitV g (d + 1) v ++ emitElems g (d + 1) a ++
        wsGap g d ++ [']'])) ++ rest = _
      simp [List.append_assoc]
    rw [hshape]
    have hsk : skipWs (wsGap g (d + 1) ++ (emitV g (d + 1) v ++ (emitElems g (d + 1) a ++
        (wsGap g d ++ (']' :: rest))))) = c :: (tl0 ++ (emitElems g (d + 1) a ++
        (wsGap g d ++ (']' :: rest)))) := by
      rw [skipWs_append (wsGap_ws g (d + 1)), hEv, List.cons_append, skipWs_not hws]
    rw [parseVal_arrCons hsk hcrb f]
    rw [parseElems_emit v a g (d + 1) d f (wsGap g (d + 1)) rest (wsGap_ws g (d + 1)) hf']
    rfl
  | .jobj .nil, g, d, fuel, rest, hf, _ => by
    obtain ⟨f, rfl⟩ : ∃ f, fuel = f + 1 := ⟨fuel - 1, by simp [fcostV] at hf; omega⟩
    exact parseVal_objNil f rest
  | .jobj (.cons k v o), g, d, fuel, rest, hf, _ => by
    obtain ⟨f, rfl⟩ : ∃ f, fuel = f + 1 := ⟨fuel - 1, by simp [fcostV] at hf; omega⟩
    have hf' : 1 + fcostV v + fcostO o ≤ f := by simp [fcostV, fcostO] at hf; omega
    have hshape : emitV g d (Jval.jobj (Jobj.cons k v o)) ++ rest =
        '\x7b' :: (wsGap g (d + 1) ++ (strChars k ++ ':' :: (colonGap g ++
          (emitV g (d + 1) v ++ (emitMems g (d + 1) o ++
          (wsGap g d ++ ('\x7d' :: rest))))))) := by
      show ('\x7b' :: (wsGap g (d + 1) ++ strChars k ++ ':' :: (colonGap g ++
        emitV g (d + 1) v ++ emitMems g (d + 1) o ++ wsGap g d ++ ['\x7d']))) ++ rest = _
      simp [List.append_assoc]
    rw [hshape]
    have hsk : skipWs (wsGap g (d + 1) ++ (strChars k ++ ':' :: (colonGap g ++
        (emitV g (d + 1) v ++ (emitMems g (d + 1) o ++
        (wsGap g d ++ ('\x7d' :: rest))))))) = '"' :: ((k.data.flatMap escCh ++ ['"']) ++
        ':' :: (colonGap g ++ (emitV g (d + 1) v ++ (emitMems g (d + 1) o ++
        (wsGap g d ++ ('\x7d' :: rest)))))) := by
      rw [skipWs_append (wsGap_ws g (d + 1)), strChars, List.cons_append,
        skipWs_not (by decide)]
    rw [parseVal_objCons hsk (by decide) f]
    rw [parseMems_emit k v o g (d + 1) d f (wsGap g (d + 1)) rest (wsGap_ws g (d + 1)) hf']
    rfl
  termination_by v g d fuel rest hf hr => sizeOf v
  decreasing_by all_goals (simp_wf; try omega)

theorem parseElems_emit : ∀ (v : Jval) (a : Jarr) (g : Bool) (d d' fuel : Nat)
    (ws rest : List Char), (∀ c ∈ ws, isWsChar c = true) →
    1 + fcostV v + fcostA a ≤ fuel →
    parseElems fuel (ws ++ (emitV g d v ++ (emitElems g d a ++
      (wsGap g d' ++ (']' :: rest))))) = some (Jarr.cons v a, rest)
  | v, .nil, g, d, d', fuel, ws, rest, hws, hf => by
    obtain ⟨f, rfl⟩ : ∃ f, fuel = f + 1 := ⟨fuel - 1, by omega⟩
    show (parseTriple (f + 1)).2.1 _ = _
    rw [parseTriple]
    simp only []
    rw [show ((parseTriple f).1 : List Char → _) = parseVal f from rfl]
    rw [parseVal_ws hws, parseVal_emit v g d f _ (by omega) (noDigitHead_elems g d d' _ _)]
    simp only [emitElems, List.nil_append]
    rw [skipWs_append (wsGap_ws g d'), skipWs_not (by decide)]
    rfl
  | v, .cons v2 a2, g, d, d', fuel, ws, rest, hws, hf => by
    obtain ⟨f, rfl⟩ : ∃ f, fuel = f + 1 := ⟨fuel - 1, by omega⟩
    have hf2 : 1 + fcostV v2 + fcostA a2 ≤ f := by simp [fcostA] at hf; omega
    show (parseTriple (f + 1)).2.1 _ = _
    rw [parseTriple]
    simp only []
    rw [show ((parseTriple f).1 : List Char → _) = parseVal f from rfl]
    rw [parseVal_ws hws, parseVal_emit v g d f _ (by omega) (noDigitHead_elems g d d' _ _)]
    simp only [emitElems, List.cons_append]
    rw [skipWs_not (by decide)]
    simp only []
    rw [show ((parseTriple f).2.1 : List Char → _) = parseElems f from rfl]
    rw [show wsGap g d ++ emitV g d v2 ++ emitElems g d a2 ++ (wsGap g d' ++ (']' :: rest))
      = wsGap g d ++ (emitV g d v2 ++ (emitElems g d a2 ++ (wsGap g d' ++ (']' :: rest))))
      from by simp [List.append_assoc]]
    rw [parseElems_emit v2 a2 g d d' f (wsGap g d) rest (wsGap_ws g d) hf2]
  termination_by v a g d dp fuel ws rest hws hf => 1 + sizeOf v + sizeOf a
  decreasing_by all_goals (simp_wf; try omega)

theorem parseMems_emit : ∀ (k : String) (v : Jval) (o : Jobj) (g : Bool) (d d' fuel : Nat)
    (ws rest : List Char), (∀ c ∈ ws, isWsChar c = true) →
    1 + fcostV v + fcostO o ≤ fuel →
    parseMems fuel (ws ++ (strChars k ++ ':' :: (colonGap g ++ (emitV g d v ++
      (emitMems g d o ++ (wsGap g d' ++ ('\x7d' :: rest))))))) =
      some (Jobj.cons k v o, rest)
  | k, v, .nil, g, d, d', fuel, ws, rest, hws, hf => by
    obtain ⟨f, rfl⟩ : ∃ f, fuel = f + 1 := ⟨fuel - 1, by omega⟩
    show (parseTriple (f + 1)).2.2 _ = _
    rw [parseTriple]
    simp only []
    rw [skipWs_append hws]
    rw [show strChars k ++ ':' :: (colonGap g ++ (emitV g d v ++ (emitMems g d Jobj.nil ++
      (wsGap g d' ++ ('\x7d' :: rest))))) = '"' :: (k.data.flatMap escCh ++
      ('"' :: (':' :: (colonGap g ++ (emitV g d v ++ (emitMems g d Jobj.nil ++
      (wsGap g d' ++ ('\x7d' :: rest)))))))) from by simp [strChars]]
    rw [skipWs_not (by decide)]
    simp only []
    rw [lexStr_escaped]
    simp only []
    rw [skipWs_not (by decide)]
    simp only []
    rw [show ((parseTriple f).1 : List Char → _) = parseVal f from rfl]
    rw [parseVal_ws (colonGap_ws g),
      parseVal_emit v g d f _ (by omega) (noDigitHead_mems g d d' _ _)]
    simp only [emitMems, List.nil_append]
    rw [skipWs_append (wsGap_ws g d'), skipWs_not (by decide)]
    simp only [strMkData]
  | k, v, .cons k2 v2 o2, g, d, d', fuel, ws, rest, hws, hf => by
    obtain ⟨f, rfl⟩ : ∃ f, fuel = f + 1 := ⟨fuel - 1, by omega⟩
    have hf2 : 1 + fcostV v2 + fcostO o2 ≤ f := by simp [fcostO] at hf; omega
    show (parseTriple (f + 1)).2.2 _ = _
    rw [parseTriple]
    simp only []
    rw [skipWs_append hws]
    rw [show strChars k ++ ':' :: (colonGap g ++ (emitV g d v ++
      (emitMems g d (Jobj.cons k2 v2 o2) ++ (wsGap g d' ++ ('\x7d' :: rest))))) =
      '"' :: (k.data.flatMap escCh ++ ('"' :: (':' :: (colonGap g ++ (emitV g d v ++
      (emitMems g d (Jobj.cons k2 v2 o2) ++ (wsGap g d' ++ ('\x7d' :: rest))))))))
      from by simp [strChars]]
    rw [skipWs_not (by decide)]
    simp only []
    rw [lexStr_escaped]
    simp only []
    rw [skipWs_not (by decide)]
    simp only []
    rw [show ((parseTriple f).1 : List Char → _) = parseVal f from rfl]
    rw [parseVal_ws (colonGap_ws g),
      parseVal_emit v g d f _ (by omega) (noDigitHead_mems g d d' _ _)]
    simp only [emitMems, List.cons_append]
    rw [skipWs_not (by decide)]
    simp only []
    rw [show ((parseTriple f).2.2 : List Char → _) = parseMems f from rfl]
    rw [show wsGap g d ++ strChars k2 ++ ':' :: (colonGap g ++ emitV g d v2 ++
      emitMems g d o2) ++ (wsGap g d' ++ ('\x7d' :: rest)) = wsGap g d ++
      (strChars k2 ++ ':' :: (colonGap g ++ (emitV g d v2 ++ (emitMems g d o2 ++
      (wsGap g d' ++ ('\x7d' :: rest)))))) from by simp [List.append_assoc]]
    rw [parseMems_emit k2 v2 o2 g d d' f (wsGap g d) rest (wsGap_ws g d) hf2]
  termination_by k v o g d dp fuel ws rest hws hf => 1 + sizeOf v + sizeOf o
  decreasing_by all_goals (simp_wf; try omega)

end

/-! ## Round-trip: top-level corollaries -/

mutual

theorem fcostV_le_emit : ∀ (v : Jval) (g : Bool) (d : Nat),
    fcostV v ≤ (emitV g d v).length
  | .jnull, g, d => by simp [fcostV, emitV]
  | .jbool true, g, d => by simp [fcostV, emitV]
  | .jbool false, g, d => by simp [fcostV, emitV]
  | .jnum n, g, d => by
    have h : 1 ≤ (intChars n).length := by
      by_cases hn : n < 0
      · simp [intChars, hn]
      · simp only [intChars, hn, if_false]
        rcases hx : natChars n.toNat with _ | ⟨c, tl⟩
        · exact absurd hx (natChars_ne_nil _)
        · simp
    simpa [fcostV, emitV] using h
  | .jstr s, g, d => by simp [fcostV, emitV, strChars]
  | .jarr a, g, d => by
    cases a with
    | nil => simp [fcostV, fcostA, emitV]
    | cons v a2 =>
      have h1 := fcostV_le_emit v g (d + 1)
      have h2 := fcostA_le_emit a2 g (d + 1)
      simp only [fcostV, fcostA, emitV, List.length_cons, List.length_append]
      omega
  | .jobj o, g, d => by
    cases o with
    | nil => simp [fcostV, fcostO, emitV]
    | cons k v o2 =>
      have h1 := fcostV_le_emit v g (d + 1)
      have h2 := fcostO_le_emit o2 g (d + 1)
      simp only [fcostV, fcostO, emitV, List.length_cons, List.length_append]
      omega
  termination_by v g d => sizeOf v
  decreasing_by all_goals (simp_wf; try omega)

theorem fcostA_le_emit : ∀ (a : Jarr) (g : Bool) (d : Nat),
    fcostA a ≤ (emitElems g d a).length
  | .nil, g, d => by simp [fcostA, emitElems]
  | .cons v a2, g, d => by
    have h1 := fcostV_le_emit v g d
    have h2 := fcostA_le_emit a2 g d
    simp only [fcostA, emitElems, List.length_cons, List.length_append]
    omega
  termination_by a g d => 1 + sizeOf a
  decreasing_by all_goals (simp_wf; try omega)

theorem fcostO_le_emit : ∀ (o : Jobj) (g : Bool) (d : Nat),
    fcostO o ≤ (emitMems g d o).length
  | .nil, g, d => by simp [fcostO, emitMems]
  | .cons k v o2, g, d => by
    have h1 := fcostV_le_emit v g d
    have h2 := fcostO_le_emit o2 g d
    simp only [fcostO, emitMems, List.length_cons, List.length_append]
    omega
  termination_by o g d => 1 + sizeOf o
  decreasing_by all_goals (simp_wf; try omega)

end

/-- Parsing undoes serialization for both gap settings. -/
theorem jsonParse_emitV (g : Bool) (v : Jval) :
    jsonParse (String.mk (emitV g 0 v)) = some v := by
  have hlen : (String.mk (emitV g 0 v)).length = (emitV g 0 v).length := rfl
  have hf : fcostV v ≤ (emitV g 0 v).length + 1 :=
    le_trans (fcostV_le_emit v g 0) (Nat.le_succ _)
  have hp : parseVal ((emitV g 0 v).length + 1) (emitV g 0 v ++ []) = some (v, []) :=
    parseVal_emit v g 0 _ [] hf trivial
  rw [List.append_nil] at hp
  show (match parseVal ((String.mk (emitV g 0 v)).length + 1) (emitV g 0 v) with
    | some (v, rest) => (match skipWs rest with | [] => some v | _ => none)
    | none => none) = some v
  rw [hlen, hp]
  rfl

/-- `JSON.parse(JSON.stringify(v)) = v`. -/
theorem jsonParse_stringifyC (v : Jval) : jsonParse (stringifyC v) = some v :=
  jsonParse_emitV false v

/-- `JSON.parse(JSON.stringify(v, null, 2)) = v`. -/
theorem jsonParse_stringifyP (v : Jval) : jsonParse (stringifyP v) = some v :=
  jsonParse_emitV true v

/-- Compact serialization is injective on modelled values. -/
theorem stringifyC_inj {v1 v2 : Jval} (h : stringifyC v1 = stringifyC v2) : v1 = v2 := by
  have h1 := jsonParse_stringifyC v1
  have h2 := jsonParse_stringifyC v2
  rw [h] at h1
  rw [h1] at h2
  injection h2

/-! ## JS object and filesystem primitives

JS objects are association lists (see the modeling notes).  Property read
takes the first entry; property write replaces the first entry in place or
appends; `delete` removes the key.  The filesystem of one scenario
directory is a mapping from file names to string contents. -/

def jsGetField : Jobj → String → Option Jval
  | .nil, _ => none
  | .cons k v o, key => if k = key then some v else jsGetField o key

def jsSetField : Jobj → String → Jval → Jobj
  | .nil, key, val => .cons key val .nil
  | .cons k v o, key, val =>
    if k = key then .cons k val o else .cons k v (jsSetField o key val)

def jsDelField : Jobj → String → Jobj
  | .nil, _ => .nil
  | .cons k v o, key => if k = key then jsDelField o key else .cons k v (jsDelField o key)

/-- Property read on an arbitrary JS value: throws on `null`, yields
`undefined` (here `none`) on other primitives. -/
def jsValGet : Jval → String → Except String (Option Jval)
  | .jnull, _ => .error "TypeError: cannot read properties of null"
  | .jobj o, key => .ok (jsGetField o key)
  | _, _ => .ok none

/-- JS truthiness. -/
def jsTruthy : Jval → Bool
  | .jnull => false
  | .jbool b => b
  | .jnum n => n != 0
  | .jstr s => !s.isEmpty
  | .jarr _ => true
  | .jobj _ => true

mutual

/-- JS template-literal / `String()` conversion of a value. -/
def jsTemplate : Jval → String
  | .jnull => "null"
  | .jbool true => "true"
  | .jbool false => "false"
  | .jnum n => String.mk (intChars n)
  | .jstr s => s
  | .jarr a => jsTemplateArr a
  | .jobj _ => "[object Object]"

def jsTemplateArr : Jarr → String
  | .nil => ""
  | .cons v .nil => (match v with | .jnull => "" | w => jsTemplate w)
  | .cons v (.cons v2 a2) =>
    (match v with | .jnull => "" | w => jsTemplate w) ++ "," ++
      jsTemplateArr (.cons v2 a2)

end

/-- Template conversion where the property may be absent (`undefined`). -/
def jsTemplateOpt : Option Jval → String
  | none => "undefined"
  | some v => jsTemplate v

def FS : Type := List (String × String)

def fsRead : FS → String → Option String
  | [], _ => none
  | (n, c) :: fs, name => if n = name then some c else fsRead fs name

def fsWrite : FS → String → String → FS
  | [], name, content => [(name, content)]
  | (n, c) :: fs, name, content =>
    if n = name then (n, content) :: fs else (n, c) :: fsWrite fs name content

theorem fsRead_fsWrite (fs : FS) (name content : String) :
    fsRead (fsWrite fs name content) name = some content := by
  induction fs with
  | nil => simp [fsRead, fsWrite]
  | cons p fs ih =>
    by_cases h : p.1 = name
    · simp [fsRead, fsWrite, h]
    · simp [fsRead, fsWrite, h, ih]

theorem fsRead_fsWrite_other (fs : FS) {name name' : String} (h : name ≠ name')
    (content : String) : fsRead (fsWrite fs name' content) name = fsRead fs name := by
  have h' : name' ≠ name := fun hc => h hc.symm
  induction fs with
  | nil => simp [fsRead, fsWrite, h']
  | cons p fs ih =>
    rcases p with ⟨n, c⟩
    by_cases h1 : n = name'
    · have h2 : ¬ n = name := by rw [h1]; exact h'
      simp [fsRead, fsWrite, h1, h2, h']
    · by_cases h2 : n = name
      · simp [fsRead, fsWrite, h1, h2, h]
      · simp [fsRead, fsWrite, h1, h2, ih]

/-! ## Scenario codec (`src/utils/scenario-code.ts`)

`extractScenarioCode` / `injectScenarioCode` and their BLOCK and
LOGIC/GLOBAL halves, as explicit state passing over `FS`.  Thrown JS
exceptions become `Except.error` with the message the source builds
(without the interpolated inner-exception text).  Injection performs no
file writes, which the embedding reflects by returning the `FS` unchanged
on every path. -/

/-- `validateJSON` from the source: `JSON.parse` succeeds. -/
def validateJSON (jsonString : String) : Bool := (jsonParse jsonString).isSome

/-- One target of `extractBlockScenario`'s loop: either it is a code
target whose code moves to a file, or it passes through unchanged. -/
def extractTarget (t : Jval) :
    Except String (Jval × Option (Option Jval × Jval)) :=
  match t with
  | .jnull => .error "TypeError: cannot read properties of null"
  | .jobj o =>
    if jsGetField o "type" = some (.jstr "code") ∧
        jsTruthy ((jsGetField o "code").getD .jnull) = true then
      let bid := jsGetField o "blockId"
      .ok (.jobj (jsSetField o "code"
            (.jstr ("__BLOCK_" ++ jsTemplateOpt bid ++ "__"))),
           some (bid, (jsGetField o "code").getD .jnull))
    else .ok (.jobj o, none)
  | other => .ok (other, none)

def extractTargets : List Jval →
    Except String (List Jval × List (Option Jval × Jval))
  | [] => .ok ([], [])
  | t :: ts => do
    let (mt, cf) ← extractTarget t
    let (mts, cfs) ← extractTargets ts
    .ok (mt :: mts, (match cf with | some c => c :: cfs | none => cfs))

def Jarr.toList : Jarr → List Jval
  | .nil => []
  | .cons v a => v :: Jarr.toList a

def Jarr.ofList : List Jval → Jarr
  | [] => .nil
  | v :: l => .cons v (Jarr.ofList l)

/-- Writes the extracted code files `block-<blockId>.js`, in order. -/
def writeCodeFiles : FS → List (Option Jval × Jval) → Except String FS
  | fs, [] => .ok fs
  | fs, (bid, code) :: rest =>
    match code with
    | .jstr s =>
      writeCodeFiles (fsWrite fs ("block-" ++ jsTemplateOpt bid ++ ".js") s) rest
    | _ => .error "TypeError: file data must be a string"

def extractBlockScenario (scenarioData : Jobj) (fs : FS) : Except String FS :=
  match jsGetField scenarioData "data" with
  | some (.jstr dstr) =>
    match jsonParse dstr with
    | none => .error "Invalid JSON in scenario data"
    | some bd =>
      match (match bd with | .jobj o => jsGetField o "targets" | _ => none) with
      | some (.jarr ts) => do
        let (metadataTargets, codeFiles) ← extractTargets ts.toList
        let updated := (match bd with
          | .jobj o => jsSetField o "targets" (.jarr (Jarr.ofList metadataTargets))
          | _ => .nil)
        let fs1 := fsWrite fs "data.json" (stringifyP (.jobj updated))
        writeCodeFiles fs1 codeFiles
      | _ => .error "Block scenario data must have targets array"
  | _ => .error "Invalid JSON in scenario data"

def extractLogicOrGlobalScenario (scenarioData : Jobj) (fs : FS) : Except String FS :=
  match jsGetField scenarioData "data" with
  | some (.jstr d) => .ok (fsWrite fs "code.js" d)
  | _ => .error "TypeError: file data must be a string"

def extractScenarioCode (scenarioData : Jobj) (fs : FS) : Except String FS :=
  let fs1 := fsWrite fs "backup.json" (stringifyP (.jobj scenarioData))
  let ty := jsGetField scenarioData "type"
  if ty = some (.jstr "BLOCK") then
    match jsGetField scenarioData "data" with
    | some (.jstr d) =>
      let fs2 := fsWrite fs1 "data.json" d
      let metadata := jsSetField scenarioData "data" (.jstr "__DATA__")
      let fs3 := fsWrite fs2 "metadata.json" (stringifyP (.jobj metadata))
      extractBlockScenario scenarioData fs3
    | _ => .error "TypeError: file data must be a string"
  else if ty = some (.jstr "LOGIC") ∨ ty = some (.jstr "GLOBAL") then
    match jsGetField scenarioData "data" with
    | some (.jstr _) =>
      let metadata := jsSetField scenarioData "data" (.jstr "__CODE__")
      let fs2 := fsWrite fs1 "metadata.json" (stringifyP (.jobj metadata))
      extractLogicOrGlobalScenario scenarioData fs2
    | _ => .error "TypeError: file data must be a string"
  else .error ("Unsupported scenario type: " ++ jsTemplateOpt ty)

/-- One target of `injectBlockScenario`'s loop: a placeholder code target
is restored from its `block-<blockId>.js` file, anything else passes
through. -/
def injectTarget (fs : FS) (t : Jval) : Except String Jval :=
  match t with
  | .jnull => .error "TypeError: cannot read properties of null"
  | .jobj o =>
    if jsGetField o "type" = some (.jstr "code") ∧
        jsGetField o "code" = some (.jstr
          ("__BLOCK_" ++ jsTemplateOpt (jsGetField o "blockId") ++ "__")) then
      match fsRead fs ("block-" ++ jsTemplateOpt (jsGetField o "blockId") ++ ".js") with
      | some codeContent => .ok (.jobj (jsSetField o "code" (.jstr codeContent)))
      | none => .error ("Failed to read code file block-" ++
          jsTemplateOpt (jsGetField o "blockId") ++ ".js")
    else .ok (.jobj o)
  | other => .ok other

def injectTargets (fs : FS) : List Jval → Except String (List Jval)
  | [] => .ok []
  | t :: ts => do
    let ft ← injectTarget fs t
    let fts ← injectTargets fs ts
    .ok (ft :: fts)

def injectBlockScenario (metadata : Jobj) (fs : FS) : Except String Jobj × FS :=
  ( match jsGetField metadata "data" with
    | some (.jstr dstr) =>
      match jsonParse dstr with
      | none => .error "Invalid JSON in scenario data"
      | some bd =>
        match (match bd with | .jobj o => jsGetField o "targets" | _ => none) with
        | some (.jarr ts) =>
          match injectTargets fs ts.toList with
          | .error e => .error e
          | .ok finalTargets =>
            match bd with
            | .jobj o =>
              if validateJSON (stringifyC (.jobj
                  (jsSetField o "targets" (.jarr (Jarr.ofList finalTargets))))) then
                .ok (jsSetField metadata "data" (.jstr (stringifyC (.jobj
                  (jsSetField o "targets" (.jarr (Jarr.ofList finalTargets)))))))
              else .error "Generated scenario data is not valid JSON"
            | _ => .error "Block scenario data must have targets array"
        | _ => .error "Block scenario data must have targets array"
    | _ => .error "Invalid JSON in scenario data",
    fs )

def injectLogicOrGlobalScenario (metadata : Jobj) (fs : FS) : Except String Jobj × FS :=
  (.ok metadata, fs)

def injectScenarioCode (fs : FS) : Except String Jobj × FS :=
  ( match fsRead fs "metadata.json" with
    | none => Except.error "Failed to read metadata.json"
    | some content =>
      match jsonParse content with
      | none => Except.error "Failed to read metadata.json"
      | some mv =>
        match jsValGet mv "data" with
        | Except.error e => Except.error e
        | Except.ok dataField =>
          match (if dataField = some (.jstr "__DATA__") then
              match fsRead fs "data.json" with
              | some dataContent =>
                (match mv with
                 | .jobj mo => Except.ok (Jval.jobj (jsSetField mo "data" (.jstr dataContent)))
                 | _ => Except.error "TypeError: cannot set properties of a primitive")
              | none => Except.error "Failed to read data.json"
            else
              match jsValGet mv "type" with
              | Except.error e => Except.error e
              | Except.ok tyF =>
                if dataField = some (.jstr "__CODE__") ∧
                    (tyF = some (.jstr "LOGIC") ∨ tyF = some (.jstr "GLOBAL")) then
                  match fsRead fs "code.js" with
                  | some codeContent =>
                    (match mv with
                     | .jobj mo =>
                       Except.ok (Jval.jobj (jsSetField mo "data" (.jstr codeContent)))
                     | _ => Except.error "TypeError: cannot set properties of a primitive")
                  | none => Except.error "Failed to read code.js"
                else Except.ok mv) with
          | Except.error e => Except.error e
          | Except.ok step =>
            match jsValGet step "type" with
            | Except.error e => Except.error e
            | Except.ok tyField =>
              if tyField = some (.jstr "BLOCK") then
                match step with
                | .jobj mo => (injectBlockScenario mo fs).1
                | _ => Except.error "Block scenario data must have targets array"
              else if tyField = some (.jstr "LOGIC") ∨ tyField = some (.jstr "GLOBAL") then
                match step with
                | .jobj mo => (injectLogicOrGlobalScenario mo fs).1
                | _ => Except.error "Unsupported scenario type: undefined"
              else Except.error ("Unsupported scenario type: " ++ jsTemplateOpt tyField),
    fs )

instance : DecidableEq (Except String Jobj) := fun x y =>
  match x, y with
  | .ok a, .ok b =>
    if h : a = b then isTrue (by rw [h]) else isFalse (fun hc => h (by injection hc))
  | .error a, .error b =>
    if h : a = b then isTrue (by rw [h]) else isFalse (fun hc => h (by injection hc))
  | .ok _, .error _ => isFalse (fun hc => by injection hc)
  | .error _, .ok _ => isFalse (fun hc => by injection hc)

/-! ## `compareScenarios` (`src/commands/core/scripts.ts`) -/

/-- The five fields stripped before comparison. -/
def strippedFields : List String :=
  ["lastRun", "runCount", "error", "iconsThen", "iconsIf"]

/-- Shallow copy both scenarios, delete the runtime-only and local-only
fields, and compare the `JSON.stringify` renderings. -/
def compareScenarios (localSc remoteSc : Jobj) : Bool :=
  decide (stringifyC (.jobj (strippedFields.foldl jsDelField localSc)) =
    stringifyC (.jobj (strippedFields.foldl jsDelField remoteSc)))

/-! ## Object-field lemmas -/

theorem jsGetField_jsSetField : ∀ (o : Jobj) (k : String) (v : Jval),
    jsGetField (jsSetField o k v) k = some v
  | .nil, k, v => by simp [jsGetField, jsSetField]
  | .cons k' v' o, k, v => by
    by_cases h : k' = k
    · simp [jsGetField, jsSetField, h]
    · simp [jsGetField, jsSetField, h, jsGetField_jsSetField o k v]

theorem jsGetField_jsSetField_other : ∀ (o : Jobj) {k k' : String}, k' ≠ k → ∀ (v : Jval),
    jsGetField (jsSetField o k v) k' = jsGetField o k'
  | .nil, k, k', h, v => by
    simp [jsGetField, jsSetField, Ne.symm h]
  | .cons k2 v2 o, k, k', h, v => by
    by_cases h1 : k2 = k
    · subst h1
      simp [jsGetField, jsSetField, Ne.symm h]
    · by_cases h2 : k2 = k'
      · subst h2
        simp [jsGetField, jsSetField, h1]
      · simp [jsGetField, jsSetField, h1, h2, jsGetField_jsSetField_other o h v]

theorem jsSetField_jsSetField : ∀ (o : Jobj) (k : String) (v v' : Jval),
    jsSetField (jsSetField o k v) k v' = jsSetField o k v'
  | .nil, k, v, v' => by simp [jsSetField]
  | .cons k2 v2 o, k, v, v' => by
    by_cases h : k2 = k
    · simp [jsSetField, h]
    · simp [jsSetField, h, jsSetField_jsSetField o k v v']

theorem jsSetField_self : ∀ {o : Jobj} {k : String} {v : Jval},
    jsGetField o k = some v → jsSetField o k v = o
  | .nil, k, v, h => by simp [jsGetField] at h
  | .cons k2 v2 o, k, v, h => by
    by_cases h1 : k2 = k
    · simp [jsGetField, h1] at h
      simp [jsSetField, h1, h]
    · simp [jsGetField, h1] at h
      simp [jsSetField, h1, jsSetField_self h]

theorem Jarr.ofList_toList : ∀ (a : Jarr), Jarr.ofList (Jarr.toList a) = a
  | .nil => rfl
  | .cons v a => by simp [Jarr.toList, Jarr.ofList, Jarr.ofList_toList a]

/-! ## Claim theorems: comparison and LOGIC/GLOBAL round trip -/

/-- C6: `compareScenarios(local, remote)` is true exactly when the two
scenario objects are equal after stripping `lastRun`, `runCount`, `error`,
`iconsThen` and `iconsIf` from both sides (in the pure value model, deep
equality is structural equality); in particular `compare(a, a)` is always
true, and any difference confined to those five fields is ignored. -/
theorem c6_compareScenarios_strip_eq : ∀ a b : Jobj,
    (compareScenarios a b = true ↔
      strippedFields.foldl jsDelField a = strippedFields.foldl jsDelField b) ∧
    compareScenarios a a = true := by
  intro a b
  constructor
  · constructor
    · intro h
      have hs := of_decide_eq_true h
      have := stringifyC_inj hs
      injection this
    · intro h
      simp [compareScenarios, h]
  · simp [compareScenarios]

/-- C3: for every scenario object of type LOGIC or GLOBAL with a string
`data`, injection after extraction returns the scenario unchanged: the
whole `data` string goes verbatim to `code.js` and back, `metadata.json`
round-trips through pretty serialization and parsing, and every other
field passes through untouched.  The filesystem returned by injection is
the one produced by extraction (injection writes nothing). -/
theorem c3_logic_global_roundtrip (s : Jobj) (fs0 : FS) (d : String)
    (hty : jsGetField s "type" = some (.jstr "LOGIC") ∨
           jsGetField s "type" = some (.jstr "GLOBAL"))
    (hdata : jsGetField s "data" = some (.jstr d)) :
    ∃ fs1, extractScenarioCode s fs0 = .ok fs1 ∧
      injectScenarioCode fs1 = (.ok s, fs1) := by
  have htyne : jsGetField s "type" ≠ some (Jval.jstr "BLOCK") := by
    intro hc
    rcases hty with h | h <;> rw [h] at hc <;> exact absurd hc (by decide)
  refine ⟨fsWrite (fsWrite (fsWrite fs0 "backup.json"
      (stringifyP (.jobj s))) "metadata.json"
      (stringifyP (.jobj (jsSetField s "data" (.jstr "__CODE__"))))) "code.js" d, ?_, ?_⟩
  · simp only [extractScenarioCode]
    rw [if_neg htyne, if_pos hty, hdata]
    simp only [extractLogicOrGlobalScenario, hdata]
  · set M := jsSetField s "data" (Jval.jstr "__CODE__") with hM
    set fs1 := fsWrite (fsWrite (fsWrite fs0 "backup.json"
      (stringifyP (.jobj s))) "metadata.json" (stringifyP (.jobj M))) "code.js" d with hfs1
    have hread_meta : fsRead fs1 "metadata.json" = some (stringifyP (.jobj M)) := by
      rw [hfs1, fsRead_fsWrite_other _ (by decide), fsRead_fsWrite]
    have hread_code : fsRead fs1 "code.js" = some d := by
      rw [hfs1, fsRead_fsWrite]
    have hMdata : jsGetField M "data" = some (.jstr "__CODE__") :=
      jsGetField_jsSetField s "data" _
    have hMty : jsGetField M "type" = jsGetField s "type" :=
      jsGetField_jsSetField_other s (by decide) _
    have hrestore : jsSetField M "data" (.jstr d) = s := by
      rw [hM, jsSetField_jsSetField, jsSetField_self hdata]
    rcases hty with h | h <;>
      simp +decide only [injectScenarioCode, hread_meta, jsonParse_stringifyP, jsValGet,
        hMdata, hMty, h, hread_code, hrestore, injectLogicOrGlobalScenario,
        if_true, if_false]

/-- Witness for C3 at a concrete LOGIC scenario and empty directory. -/
theorem c3_logic_global_roundtrip_witness :
    ∃ fs1, extractScenarioCode (Jobj.cons "index" (Jval.jstr "5")
        (Jobj.cons "type" (Jval.jstr "LOGIC")
        (Jobj.cons "data" (Jval.jstr "let x = 1;") Jobj.nil))) [] = .ok fs1 ∧
      injectScenarioCode fs1 = (.ok (Jobj.cons "index" (Jval.jstr "5")
        (Jobj.cons "type" (Jval.jstr "LOGIC")
        (Jobj.cons "data" (Jval.jstr "let x = 1;") Jobj.nil))), fs1) :=
  c3_logic_global_roundtrip _ [] "let x = 1;" (Or.inl (by decide)) (by decide)

/-! ## Unreachability of the generated-JSON guard (block injection) -/

theorem injectTarget_error_head {fs : FS} {t : Jval} {e : String}
    (h : injectTarget fs t = .error e) :
    e.data.head? = some (Char.ofNat 84) ∨ e.data.head? = some (Char.ofNat 70) := by
  unfold injectTarget at h
  split at h
  · injection h with h1
    left
    rw [← h1]
    decide
  · split at h
    · split at h
      · exact absurd h (by intro hc; injection hc)
      · injection h with h1
        right
        rw [← h1]
        simp [String.data_append]
    · exact absurd h (by intro hc; injection hc)
  · exact absurd h (by intro hc; injection hc)

theorem injectTargets_error_head : ∀ {fs : FS} {ts : List Jval} {e : String},
    injectTargets fs ts = .error e →
    e.data.head? = some (Char.ofNat 84) ∨ e.data.head? = some (Char.ofNat 70)
  | fs, [], e, h => by simp [injectTargets] at h
  | fs, t :: ts, e, h => by
    simp only [injectTargets, bind, Except.bind] at h
    split at h
    · rename_i e' heq
      injection h with h1
      subst h1
      exact injectTarget_error_head heq
    · split at h
      · rename_i heq
        injection h with h1
        subst h1
        exact injectTargets_error_head heq
      · injection h

theorem injectBlockScenario_no_guard_error (metadata : Jobj) (fs : FS) :
    (injectBlockScenario metadata fs).1 ≠
      .error "Generated scenario data is not valid JSON" := by
  intro hc
  simp only [injectBlockScenario] at hc
  split at hc
  · split at hc
    · exact absurd hc (by decide)
    · rename_i bd heqparse
      cases bd with
      | jnull => simp at hc
      | jbool b => simp at hc
      | jnum n => simp at hc
      | jstr s => simp at hc
      | jarr a => simp at hc
      | jobj o =>
        simp only [] at hc
        split at hc
        · rename_i ts heqt
          split at hc
          · rename_i e heqe
            injection hc with h1
            subst h1
            rcases injectTargets_error_head heqe with h | h <;>
              exact absurd h (by decide)
          · split at hc
            · injection hc
            · rename_i hval
              exact hval (by rw [validateJSON, jsonParse_stringifyC]; rfl)
        · exact absurd hc (by decide)
  · exact absurd hc (by decide)

/-- C10: the final JSON-validation guard of BLOCK injection never fails:
on every metadata object and every directory state, `injectBlockScenario`
never returns the error `Generated scenario data is not valid JSON`,
because the re-serialized data string always parses (`jsonParse` after
`stringifyC` succeeds) and every other error branch carries a different
message.  The guard's error branch is unreachable. -/
theorem c10_generated_json_guard_unreachable : ∀ (metadata : Jobj) (fs : FS),
    decide ((injectBlockScenario metadata fs).1 =
      .error "Generated scenario data is not valid JSON") = false := by
  intro metadata fs
  exact decide_eq_false (injectBlockScenario_no_guard_error metadata fs)

/-! ## Missing block file: injection error -/

theorem injectTarget_missing (fs : FS) (t : Jobj)
    (hty : jsGetField t "type" = some (.jstr "code"))
    (hcode : jsGetField t "code" = some (.jstr
      ("__BLOCK_" ++ jsTemplateOpt (jsGetField t "blockId") ++ "__")))
    (hmiss : fsRead fs ("block-" ++ jsTemplateOpt (jsGetField t "blockId") ++ ".js") = none) :
    injectTarget fs (.jobj t) = .error ("Failed to read code file block-" ++
      jsTemplateOpt (jsGetField t "blockId") ++ ".js") := by
  simp only [injectTarget]
  rw [if_pos (And.intro hty hcode), hmiss]

theorem injectTargets_prefix_error : ∀ (fs : FS) (pre post : List Jval) (t : Jval)
    (e : String), (∀ p ∈ pre, ∃ v, injectTarget fs p = .ok v) →
    injectTarget fs t = .error e →
    injectTargets fs (pre ++ t :: post) = .error e
  | fs, [], post, t, e, hpre, ht => by
    simp only [List.nil_append, injectTargets, bind, Except.bind, ht]
  | fs, p :: pre, post, t, e, hpre, ht => by
    obtain ⟨v, hv⟩ := hpre p (List.mem_cons_self p pre)
    have ih := injectTargets_prefix_error fs pre post t e
      (fun q hq => hpre q (List.mem_cons_of_mem p hq)) ht
    simp only [List.cons_append, injectTargets, bind, Except.bind, hv]
    rw [List.append_eq, ih]

/-- C8: injecting a BLOCK scenario whose restored data contains a
placeholder code target `__BLOCK_<blockId>__` with no corresponding
`block-<blockId>.js` file on disk (all earlier targets restoring fine)
fails with an error naming that exact filename, and the directory state
returned by the injection is exactly the input one: no existing file is
modified. -/
theorem c8_missing_block_file_error (metadata : Jobj) (fs : FS) (dstr : String)
    (o t : Jobj) (a : Jarr) (pre post : List Jval)
    (hdata : jsGetField metadata "data" = some (.jstr dstr))
    (hparse : jsonParse dstr = some (.jobj o))
    (htargets : jsGetField o "targets" = some (.jarr a))
    (hsplit : a.toList = pre ++ (.jobj t) :: post)
    (hpre : ∀ p ∈ pre, ∃ v, injectTarget fs p = .ok v)
    (hty : jsGetField t "type" = some (.jstr "code"))
    (hcode : jsGetField t "code" = some (.jstr
      ("__BLOCK_" ++ jsTemplateOpt (jsGetField t "blockId") ++ "__")))
    (hmiss : fsRead fs ("block-" ++ jsTemplateOpt (jsGetField t "blockId") ++ ".js")
      = none) :
    injectBlockScenario metadata fs =
      (.error ("Failed to read code file block-" ++
        jsTemplateOpt (jsGetField t "blockId") ++ ".js"), fs) := by
  have herr := injectTargets_prefix_error fs pre post _ _ hpre
    (injectTarget_missing fs t hty hcode hmiss)
  rw [← hsplit] at herr
  simp only [injectBlockScenario, hdata, hparse, htargets, herr]

/-- The placeholder target of the C8 witness scenario. -/
def c8tgt : Jobj :=
  Jobj.cons "type" (Jval.jstr "code") (Jobj.cons "code" (Jval.jstr "__BLOCK_5__")
    (Jobj.cons "blockId" (Jval.jnum 5) Jobj.nil))

/-- The parsed block data object of the C8 witness scenario. -/
def c8data : Jobj :=
  Jobj.cons "targets" (Jval.jarr (Jarr.cons (Jval.jobj c8tgt) Jarr.nil)) Jobj.nil

/-- Witness for C8: a one-target BLOCK data object whose placeholder
`__BLOCK_5__` has no `block-5.js` in the empty directory. -/
theorem c8_missing_block_file_error_witness :
    injectBlockScenario (Jobj.cons "data" (Jval.jstr (stringifyC (Jval.jobj c8data)))
      Jobj.nil) [] =
      (.error ("Failed to read code file block-" ++
        jsTemplateOpt (jsGetField c8tgt "blockId") ++ ".js"), []) :=
  c8_missing_block_file_error
    (Jobj.cons "data" (Jval.jstr (stringifyC (Jval.jobj c8data))) Jobj.nil) []
    (stringifyC (Jval.jobj c8data)) c8data c8tgt
    (Jarr.cons (Jval.jobj c8tgt) Jarr.nil) [] [] (by decide)
    (jsonParse_stringifyC _) (by decide) (by decide) (by simp)
    (by decide) (by decide) (by decide)

/-! ## BLOCK round trip: target-level machinery -/

/-- Whether a target is treated as a code target by extraction. -/
def isCodeTarget : Jval → Bool
  | .jobj o => decide (jsGetField o "type" = some (.jstr "code")) &&
      jsTruthy ((jsGetField o "code").getD .jnull)
  | _ => false

/-- The placeholder written into a code target's `code` field. -/
def placeholderOf (o : Jobj) : String :=
  "__BLOCK_" ++ jsTemplateOpt (jsGetField o "blockId") ++ "__"

/-- The metadata form of one target: code targets get the placeholder,
everything else passes through. -/
def metaTarget (t : Jval) : Jval :=
  match t with
  | .jobj o =>
    if isCodeTarget (.jobj o) then .jobj (jsSetField o "code" (.jstr (placeholderOf o)))
    else .jobj o
  | other => other

/-- The code-file entry produced for a code target. -/
def codeEntry (t : Jval) : Option Jval × Jval :=
  match t with
  | .jobj o => (jsGetField o "blockId", (jsGetField o "code").getD .jnull)
  | _ => (none, .jnull)

/-- File name of a code-file entry. -/
def fnameOfEntry (e : Option Jval × Jval) : String :=
  "block-" ++ jsTemplateOpt e.1 ++ ".js"

/-- A target extraction and injection round-trip cleanly: not `null`, and
if it is a code target its `code` field holds a string. -/
def okTarget : Jval → Bool
  | .jnull => false
  | .jobj o => !isCodeTarget (.jobj o) ||
      (match jsGetField o "code" with | some (.jstr _) => true | _ => false)
  | _ => true

theorem isCodeTarget_jobj {o : Jobj} : isCodeTarget (.jobj o) = true ↔
    (jsGetField o "type" = some (.jstr "code") ∧
      jsTruthy ((jsGetField o "code").getD .jnull) = true) := by
  simp [isCodeTarget]

theorem Jarr.toList_ofList : ∀ (l : List Jval), Jarr.toList (Jarr.ofList l) = l
  | [] => rfl
  | v :: l => by simp [Jarr.toList, Jarr.ofList, Jarr.toList_ofList l]

theorem placeholder_truthy (o : Jobj) : jsTruthy (.jstr (placeholderOf o)) = true := by
  have h : (placeholderOf o).isEmpty = false := by
    rw [Bool.eq_false_iff]
    intro hc
    rw [String.isEmpty_iff] at hc
    have h2 := congrArg String.data hc
    rw [placeholderOf, String.data_append, String.data_append] at h2
    have hb : "__BLOCK_".data = Char.ofNat 95 :: "_BLOCK_".data := rfl
    rw [hb] at h2
    simp at h2
  show (!(placeholderOf o).isEmpty) = true
  rw [h]
  rfl

theorem blockname_ne_metadata (x : String) :
    ("block-" ++ x ++ ".js") ≠ "metadata.json" := by
  intro h
  have h2 := congrArg String.data h
  rw [String.data_append, String.data_append] at h2
  have hb : "block-".data = Char.ofNat 98 :: "lock-".data := rfl
  have hm : "metadata.json".data = Char.ofNat 109 :: "etadata.json".data := rfl
  rw [hb, hm] at h2
  simp at h2

theorem blockname_ne_data (x : String) :
    ("block-" ++ x ++ ".js") ≠ "data.json" := by
  intro h
  have h2 := congrArg String.data h
  rw [String.data_append, String.data_append] at h2
  have hb : "block-".data = Char.ofNat 98 :: "lock-".data := rfl
  have hm : "data.json".data = Char.ofNat 100 :: "ata.json".data := rfl
  rw [hb, hm] at h2
  simp at h2

theorem extractTarget_ok (t : Jval) (hok : okTarget t = true) :
    extractTarget t = .ok (metaTarget t,
      if isCodeTarget t then some (codeEntry t) else none) := by
  match t with
  | .jnull => exact absurd hok (by simp [okTarget])
  | .jbool b => rfl
  | .jnum n => rfl
  | .jstr s => rfl
  | .jarr a => rfl
  | .jobj o =>
    by_cases hct : isCodeTarget (.jobj o) = true
    · obtain ⟨hty, htr⟩ := isCodeTarget_jobj.mp hct
      simp only [extractTarget, metaTarget, codeEntry, placeholderOf, hct, if_true]
      rw [if_pos (And.intro hty htr)]
    · have hcond : ¬ (jsGetField o "type" = some (.jstr "code") ∧
          jsTruthy ((jsGetField o "code").getD .jnull) = true) :=
        fun hc => hct (isCodeTarget_jobj.mpr hc)
      simp only [extractTarget, metaTarget, codeEntry]
      rw [if_neg hcond, if_neg hct, if_neg hct]

theorem extractTargets_ok : ∀ (ts : List Jval), (∀ t ∈ ts, okTarget t = true) →
    extractTargets ts = .ok (ts.map metaTarget,
      (ts.filter isCodeTarget).map codeEntry)
  | [], _ => rfl
  | t :: ts, hok => by
    have ht := extractTarget_ok t (hok t (List.mem_cons_self t ts))
    have ih := extractTargets_ok ts (fun q hq => hok q (List.mem_cons_of_mem t hq))
    by_cases hct : isCodeTarget t = true <;>
      simp [extractTargets, bind, Except.bind, ht, ih, hct, List.filter_cons]

theorem writeCodeFiles_ok : ∀ (entries : List (Option Jval × Jval)) (fs : FS),
    (∀ e ∈ entries, ∃ c, e.2 = Jval.jstr c) →
    ∃ fsF, writeCodeFiles fs entries = .ok fsF ∧
      (∀ name, name ∉ entries.map fnameOfEntry → fsRead fsF name = fsRead fs name) ∧
      ((entries.map fnameOfEntry).Nodup →
        ∀ e ∈ entries, ∀ c, e.2 = Jval.jstr c →
          fsRead fsF (fnameOfEntry e) = some c)
  | [], fs, _ => ⟨fs, rfl, fun _ _ => rfl, fun _ e he => absurd he (List.not_mem_nil e)⟩
  | (bid, code) :: rest, fs, hstr => by
    obtain ⟨c, hc⟩ := hstr (bid, code) (List.mem_cons_self _ rest)
    subst hc
    obtain ⟨fsF, hw, hpres, hread⟩ := writeCodeFiles_ok rest
      (fsWrite fs ("block-" ++ jsTemplateOpt bid ++ ".js") c)
      (fun e he => hstr e (List.mem_cons_of_mem _ he))
    refine ⟨fsF, ?_, ?_, ?_⟩
    · simp only [writeCodeFiles]
      exact hw
    · intro name hname
      rw [List.map_cons, List.mem_cons] at hname
      push_neg at hname
      rw [hpres name hname.2, fsRead_fsWrite_other]
      intro hc2
      exact hname.1 (by rw [hc2]; rfl)
    · intro hnd e he c' hc'
      rw [List.map_cons, List.nodup_cons] at hnd
      rcases List.mem_cons.mp he with heq | hmem
      · subst heq
        injection hc' with hcc
        subst hcc
        rw [hpres _ hnd.1]
        show fsRead (fsWrite fs (fnameOfEntry (bid, Jval.jstr c)) c) _ = some c
        rw [fsRead_fsWrite]
      · exact hread hnd.2 e hmem c' hc'

theorem injectTarget_metaTarget (fsF : FS) (t : Jval) (hok : okTarget t = true)
    (hfile : ∀ o : Jobj, ∀ c : String, t = .jobj o →
      jsGetField o "code" = some (.jstr c) → isCodeTarget t = true →
      fsRead fsF ("block-" ++ jsTemplateOpt (jsGetField o "blockId") ++ ".js")
        = some c) :
    injectTarget fsF (metaTarget t) = .ok t := by
  match t with
  | .jnull => exact absurd hok (by simp [okTarget])
  | .jbool b => rfl
  | .jnum n => rfl
  | .jstr s => rfl
  | .jarr a => rfl
  | .jobj o =>
    by_cases hct : isCodeTarget (.jobj o) = true
    · obtain ⟨hty, htr⟩ := isCodeTarget_jobj.mp hct
      obtain ⟨c, hcode⟩ : ∃ c, jsGetField o "code" = some (.jstr c) := by
        have hm : (match jsGetField o "code" with
            | some (Jval.jstr _) => true | _ => false) = true := by
          simpa [okTarget, hct] using hok
        split at hm
        · rename_i c heq
          exact ⟨c, heq⟩
        · exact absurd hm (by decide)
      set M := jsSetField o "code" (Jval.jstr (placeholderOf o)) with hMdef
      have hMty : jsGetField M "type" = some (.jstr "code") := by
        rw [hMdef, jsGetField_jsSetField_other o (by decide), hty]
      have hMbid : jsGetField M "blockId" = jsGetField o "blockId" := by
        rw [hMdef]
        exact jsGetField_jsSetField_other o (by decide) _
      have hMcode : jsGetField M "code" = some (.jstr ("__BLOCK_" ++
          jsTemplateOpt (jsGetField M "blockId") ++ "__")) := by
        rw [hMdef, jsGetField_jsSetField, hMbid]
        rfl
      have hmt : metaTarget (.jobj o) = .jobj M := by simp [metaTarget, hct, hMdef]
      rw [hmt]
      simp only [injectTarget]
      rw [if_pos (And.intro hMty hMcode), hMbid, hfile o c rfl hcode hct]
      show Except.ok (Jval.jobj (jsSetField M "code" (Jval.jstr c))) =
        Except.ok (Jval.jobj o)
      rw [hMdef, jsSetField_jsSetField, jsSetField_self hcode]
    · have hmt : metaTarget (.jobj o) = .jobj o := by simp [metaTarget, hct]
      have hcond : ¬ (jsGetField o "type" = some (Jval.jstr "code") ∧
          jsGetField o "code" = some (Jval.jstr ("__BLOCK_" ++
            jsTemplateOpt (jsGetField o "blockId") ++ "__"))) := by
        rintro ⟨hty2, hcode2⟩
        apply hct
        apply isCodeTarget_jobj.mpr
        refine ⟨hty2, ?_⟩
        rw [hcode2]
        exact placeholder_truthy o
      rw [hmt]
      simp only [injectTarget]
      rw [if_neg hcond]

theorem injectTargets_map : ∀ (ts : List Jval) (fsF : FS),
    (∀ t ∈ ts, okTarget t = true) →
    (∀ t ∈ ts, ∀ o : Jobj, ∀ c : String, t = .jobj o →
      jsGetField o "code" = some (.jstr c) → isCodeTarget t = true →
      fsRead fsF ("block-" ++ jsTemplateOpt (jsGetField o "blockId") ++ ".js")
        = some c) →
    injectTargets fsF (ts.map metaTarget) = .ok ts
  | [], fsF, _, _ => rfl
  | t :: ts, fsF, hok, hfile => by
    have ht := injectTarget_metaTarget fsF t (hok t (List.mem_cons_self t ts))
      (hfile t (List.mem_cons_self t ts))
    have ih := injectTargets_map ts fsF
      (fun q hq => hok q (List.mem_cons_of_mem t hq))
      (fun q hq => hfile q (List.mem_cons_of_mem t hq))
    simp only [List.map_cons, injectTargets, bind, Except.bind, ht]
    rw [ih]

theorem codeTarget_string {t : Jval} (hok : okTarget t = true)
    (hct : isCodeTarget t = true) :
    ∃ o c, t = .jobj o ∧ jsGetField o "code" = some (.jstr c) ∧
      (codeEntry t).2 = .jstr c := by
  match t with
  | .jobj o =>
    obtain ⟨c, hcode⟩ : ∃ c, jsGetField o "code" = some (.jstr c) := by
      have hm : (match jsGetField o "code" with
          | some (Jval.jstr _) => true | _ => false) = true := by
        simpa [okTarget, hct] using hok
      split at hm
      · rename_i c heq
        exact ⟨c, heq⟩
      · exact absurd hm (by decide)
    exact ⟨o, c, rfl, hcode, by simp [codeEntry, hcode]⟩
  | .jnull => exact absurd hct (by simp [isCodeTarget])
  | .jbool b => exact absurd hct (by simp [isCodeTarget])
  | .jnum n => exact absurd hct (by simp [isCodeTarget])
  | .jstr s2 => exact absurd hct (by simp [isCodeTarget])
  | .jarr a2 => exact absurd hct (by simp [isCodeTarget])

/-- C2: for every BLOCK scenario whose `data` string parses to an object
with a `targets` array (targets non-null, code targets carrying string
code, and the per-target code file names distinct), injection after
extraction yields a scenario whose `data` string re-parses to exactly the
original parsed block data — every extracted code string is restored
verbatim from its `block-<blockId>.js` file — and the final `data` string
passes JSON validation.  The filesystem comes back exactly as extraction
left it. -/
theorem c2_block_roundtrip (s : Jobj) (fs0 : FS) (dstr : String) (o : Jobj) (a : Jarr)
    (hty : jsGetField s "type" = some (.jstr "BLOCK"))
    (hdata : jsGetField s "data" = some (.jstr dstr))
    (hparse : jsonParse dstr = some (.jobj o))
    (htargets : jsGetField o "targets" = some (.jarr a))
    (hok : ∀ t ∈ a.toList, okTarget t = true)
    (hnd : ((((a.toList.filter isCodeTarget).map codeEntry)).map fnameOfEntry).Nodup) :
    ∃ fs1, extractScenarioCode s fs0 = .ok fs1 ∧
      injectScenarioCode fs1 =
        (.ok (jsSetField s "data" (.jstr (stringifyC (.jobj o)))), fs1) ∧
      jsonParse (stringifyC (.jobj o)) = some (.jobj o) ∧
      validateJSON (stringifyC (.jobj o)) = true := by
  have h9 : validateJSON (stringifyC (Jval.jobj o)) = true := by
    rw [validateJSON, jsonParse_stringifyC]
    rfl
  have hstr : ∀ e ∈ (a.toList.filter isCodeTarget).map codeEntry,
      ∃ c, e.2 = Jval.jstr c := by
    intro e he
    rw [List.mem_map] at he
    obtain ⟨t, htmem, rfl⟩ := he
    have hf := List.mem_filter.mp htmem
    obtain ⟨o2, c, hto, hcode, hce⟩ := codeTarget_string (hok t hf.1) hf.2
    exact ⟨c, hce⟩
  obtain ⟨fsF, hw, hpres, hread⟩ := writeCodeFiles_ok
    ((a.toList.filter isCodeTarget).map codeEntry)
    (fsWrite (fsWrite (fsWrite (fsWrite fs0 "backup.json"
      (stringifyP (Jval.jobj s))) "data.json" dstr) "metadata.json"
      (stringifyP (Jval.jobj (jsSetField s "data" (Jval.jstr "__DATA__")))))
      "data.json" (stringifyP (Jval.jobj (jsSetField o "targets"
        (Jval.jarr (Jarr.ofList (List.map metaTarget a.toList)))))))
    hstr
  have hexeq : extractScenarioCode s fs0 = writeCodeFiles
      (fsWrite (fsWrite (fsWrite (fsWrite fs0 "backup.json"
        (stringifyP (Jval.jobj s))) "data.json" dstr) "metadata.json"
        (stringifyP (Jval.jobj (jsSetField s "data" (Jval.jstr "__DATA__")))))
        "data.json" (stringifyP (Jval.jobj (jsSetField o "targets"
          (Jval.jarr (Jarr.ofList (List.map metaTarget a.toList)))))))
      ((a.toList.filter isCodeTarget).map codeEntry) := by
    simp +decide only [extractScenarioCode, hty, hdata, extractBlockScenario, hparse,
      htargets, extractTargets_ok a.toList hok, bind, Except.bind, if_true, if_false]
  have hnm : "metadata.json" ∉
      ((a.toList.filter isCodeTarget).map codeEntry).map fnameOfEntry := by
    intro hmem
    rw [List.mem_map] at hmem
    obtain ⟨e, he, heq⟩ := hmem
    rw [fnameOfEntry] at heq
    exact blockname_ne_metadata _ heq
  have hnd2 : "data.json" ∉
      ((a.toList.filter isCodeTarget).map codeEntry).map fnameOfEntry := by
    intro hmem
    rw [List.mem_map] at hmem
    obtain ⟨e, he, heq⟩ := hmem
    rw [fnameOfEntry] at heq
    exact blockname_ne_data _ heq
  have hrm : fsRead fsF "metadata.json" = some (stringifyP (Jval.jobj
      (jsSetField s "data" (Jval.jstr "__DATA__")))) := by
    rw [hpres _ hnm, fsRead_fsWrite_other _ (by decide), fsRead_fsWrite]
  have hrd : fsRead fsF "data.json" = some (stringifyP (Jval.jobj (jsSetField o
      "targets" (Jval.jarr (Jarr.ofList (List.map metaTarget a.toList)))))) := by
    rw [hpres _ hnd2, fsRead_fsWrite]
  have hfile : ∀ t ∈ a.toList, ∀ o2 : Jobj, ∀ c : String, t = .jobj o2 →
      jsGetField o2 "code" = some (.jstr c) → isCodeTarget t = true →
      fsRead fsF ("block-" ++ jsTemplateOpt (jsGetField o2 "blockId") ++ ".js")
        = some c := by
    intro t ht o2 c hto hcode hct
    subst hto
    have hmem : codeEntry (Jval.jobj o2) ∈ (a.toList.filter isCodeTarget).map codeEntry :=
      List.mem_map_of_mem codeEntry (List.mem_filter.mpr ⟨ht, hct⟩)
    have h2 : (codeEntry (Jval.jobj o2)).2 = Jval.jstr c := by simp [codeEntry, hcode]
    exact hread hnd _ hmem c h2
  have hinj := injectTargets_map a.toList fsF hok hfile
  refine ⟨fsF, by rw [hexeq]; exact hw, ?_, jsonParse_stringifyC _, h9⟩
  have hMDdata : jsGetField (jsSetField s "data" (Jval.jstr "__DATA__")) "data"
      = some (.jstr "__DATA__") := jsGetField_jsSetField s "data" _
  have hS2ty : jsGetField (jsSetField (jsSetField s "data" (Jval.jstr "__DATA__"))
      "data" (Jval.jstr (stringifyP (Jval.jobj (jsSetField o "targets"
        (Jval.jarr (Jarr.ofList (List.map metaTarget a.toList)))))))) "type"
      = some (.jstr "BLOCK") := by
    rw [jsGetField_jsSetField_other _ (by decide),
      jsGetField_jsSetField_other s (by decide), hty]
  have hS2data : jsGetField (jsSetField (jsSetField s "data" (Jval.jstr "__DATA__"))
      "data" (Jval.jstr (stringifyP (Jval.jobj (jsSetField o "targets"
        (Jval.jarr (Jarr.ofList (List.map metaTarget a.toList)))))))) "data"
      = some (.jstr (stringifyP (Jval.jobj (jsSetField o "targets"
        (Jval.jarr (Jarr.ofList (List.map metaTarget a.toList))))))) :=
    jsGetField_jsSetField _ "data" _
  have hUPt : jsGetField (jsSetField o "targets"
      (Jval.jarr (Jarr.ofList (List.map metaTarget a.toList)))) "targets"
      = some (.jarr (Jarr.ofList (List.map metaTarget a.toList))) :=
    jsGetField_jsSetField o "targets" _
  have h7 : (Jarr.ofList (List.map metaTarget a.toList)).toList
      = List.map metaTarget a.toList := Jarr.toList_ofList _
  have h8 : jsSetField (jsSetField o "targets"
      (Jval.jarr (Jarr.ofList (List.map metaTarget a.toList)))) "targets"
      (Jval.jarr (Jarr.ofList a.toList)) = o := by
    rw [Jarr.ofList_toList, jsSetField_jsSetField, jsSetField_self htargets]
  have h10 : jsSetField (jsSetField (jsSetField s "data" (Jval.jstr "__DATA__"))
      "data" (Jval.jstr (stringifyP (Jval.jobj (jsSetField o "targets"
        (Jval.jarr (Jarr.ofList (List.map metaTarget a.toList)))))))) "data"
      (Jval.jstr (stringifyC (Jval.jobj o)))
      = jsSetField s "data" (.jstr (stringifyC (.jobj o))) := by
    rw [jsSetField_jsSetField, jsSetField_jsSetField]
  simp +decide only [injectScenarioCode, hrm, jsonParse_stringifyP, jsValGet, hMDdata,
    hrd, hS2ty, injectBlockScenario, hS2data, hUPt, h7, hinj, h8, h9, h10,
    if_true, if_false]

/-- The code target of the C2 witness scenario. -/
def c2tgt : Jobj :=
  Jobj.cons "type" (Jval.jstr "code") (Jobj.cons "blockId" (Jval.jnum 7)
    (Jobj.cons "code" (Jval.jstr "let a = 2;") Jobj.nil))

/-- The targets array of the C2 witness scenario: one code target, one
pass-through value. -/
def c2arr : Jarr := Jarr.cons (Jval.jobj c2tgt) (Jarr.cons (Jval.jstr "plain") Jarr.nil)

/-- The parsed block data of the C2 witness scenario. -/
def c2bd : Jobj := Jobj.cons "targets" (Jval.jarr c2arr) Jobj.nil

/-- The C2 witness scenario object. -/
def c2s : Jobj :=
  Jobj.cons "type" (Jval.jstr "BLOCK")
    (Jobj.cons "data" (Jval.jstr (stringifyC (Jval.jobj c2bd))) Jobj.nil)

/-- Witness for C2 at a concrete two-target BLOCK scenario. -/
theorem c2_block_roundtrip_witness :
    ∃ fs1, extractScenarioCode c2s [] = .ok fs1 ∧
      injectScenarioCode fs1 =
        (.ok (jsSetField c2s "data" (.jstr (stringifyC (.jobj c2bd)))), fs1) ∧
      jsonParse (stringifyC (.jobj c2bd)) = some (.jobj c2bd) ∧
      validateJSON (stringifyC (.jobj c2bd)) = true :=
  c2_block_roundtrip c2s [] (stringifyC (Jval.jobj c2bd)) c2bd c2arr
    (by decide) (by decide) (jsonParse_stringifyC _) (by decide) (by decide) (by decide)

/-! ## Parameter handling (`src/commands/dynamic/parameter-handling.ts`)

Schema model: a schema node either has a `properties` object (modeled as
`Shape.obj`, with its `required` array taken as present, possibly empty
-- a present array is always truthy in JS, including `[]`), or is a
recognized primitive (`string`/`number`/`integer`/`boolean`), or is
anything else (`Shape.other`: no `properties`, unrecognized `type`).
`localeCompare` is modeled as code-point lexicographic comparison, and
the engine's stable `Array.prototype.sort` as a stable insertion sort:
any two stable sorts of the same comparator agree. -/

inductive PType where
  | pstring
  | pnumber
  | pinteger
  | pboolean
deriving DecidableEq, Repr

mutual

inductive Shape where
  | prim (ty : PType)
  | obj (props : Props) (required : List String)
  | other

inductive Props where
  | nil
  | cons (key : String) (sh : Shape) (rest : Props)

end

/-- One positional parameter as collected by `getPositionalParameters`. -/
structure PParam where
  name : String
  path : List String
  ty : PType
  required : Bool
deriving DecidableEq, Repr

mutual

/-- `searchParams` on one property: recurse into nested objects, push a
required primitive (string/number/integer) leaf. -/
def searchShape : Shape → String → List String → List String → List PParam
  | .obj props req2, key, path, _ => searchProps props (path ++ [key]) req2
  | .prim ty, key, path, req =>
    if req.contains key ∧ (ty = .pstring ∨ ty = .pnumber ∨ ty = .pinteger) then
      [⟨key, path ++ [key], ty, true⟩]
    else []
  | .other, _, _, _ => []

/-- `searchParams` over a property list, in insertion order. -/
def searchProps : Props → List String → List String → List PParam
  | .nil, _, _ => []
  | .cons key sh rest, path, req =>
    searchShape sh key path req ++ searchProps rest path req

end

/-- Code-point lexicographic strict comparison (the model of
`localeCompare` returning a negative value). -/
def strLtB : List Char → List Char → Bool
  | [], [] => false
  | [], _ :: _ => true
  | _ :: _, [] => false
  | c :: cs, d :: ds =>
    if c.toNat < d.toNat then true
    else if d.toNat < c.toNat then false
    else strLtB cs ds

/-- The sort comparator: `a` strictly precedes `b` when its path is
shorter, or paths have equal length and its name is lexicographically
smaller (`a.path.length - b.path.length`, then `localeCompare`). -/
def pKeyLt (a b : PParam) : Bool :=
  decide (a.path.length < b.path.length) ||
    (decide (a.path.length = b.path.length) && strLtB a.name.data b.name.data)

/-- Stable insertion of `x` into a sorted list: `x` goes before the first
element that does not strictly precede it. -/
def insertPos (x : PParam) : List PParam → List PParam
  | [] => [x]
  | y :: ys => if pKeyLt y x then y :: insertPos x ys else x :: y :: ys

/-- Stable sort by the comparator (modeling the engine's stable sort). -/
def sortPos : List PParam → List PParam
  | [] => []
  | x :: xs => insertPos x (sortPos xs)

/-- `getPositionalParameters`: collect, then sort by depth and name.
Returns `[]` when the schema has no `params` or no `properties`. -/
def getPositionalParameters (params? : Option Shape) : List PParam :=
  match params? with
  | some (.obj props req) => sortPos (searchProps props [] req)
  | _ => []

def Props.toList : Props → List (String × Shape)
  | .nil => []
  | .cons k sh r => (k, sh) :: Props.toList r

def propsGet : Props → String → Option Shape
  | .nil, _ => none
  | .cons k sh r, key => if k = key then some sh else propsGet r key

/-! ## parseInt, flag-name camelization, option values -/

def digitVal10 (c : Char) : Option Nat :=
  if c.toNat ≥ 48 ∧ c.toNat ≤ 57 then some (c.toNat - 48) else none

def digitVal16 (c : Char) : Option Nat :=
  if c.toNat ≥ 48 ∧ c.toNat ≤ 57 then some (c.toNat - 48)
  else if c.toNat ≥ 97 ∧ c.toNat ≤ 102 then some (c.toNat - 87)
  else if c.toNat ≥ 65 ∧ c.toNat ≤ 70 then some (c.toNat - 55)
  else none

/-- Maximal digit prefix in the given base; `none` when there is no
digit (`parseInt` yields `NaN`), otherwise its value. -/
def parseIntFrom (base : Nat) (dv : Char → Option Nat) (cs : List Char) : Option Int :=
  let ds := cs.takeWhile (fun c => (dv c).isSome)
  if ds.isEmpty then none
  else some (Int.ofNat (ds.foldl (fun acc c => acc * base + ((dv c).getD 0)) 0))

def parseIntSign : List Char → (Int × List Char)
  | c :: rest =>
    if c = Char.ofNat 45 then (-1, rest)
    else if c = Char.ofNat 43 then (1, rest)
    else (1, c :: rest)
  | [] => (1, [])

/-- `parseInt(s, 10)`: trim leading whitespace (modeled as the common
whitespace characters), optional sign, then the maximal decimal-digit
prefix; `none` models `NaN`. -/
def parseInt10 (s : String) : Option Int :=
  let cs := s.data.dropWhile isWsChar
  let sg := parseIntSign cs
  (parseIntFrom 10 digitVal10 sg.2).map (fun v => sg.1 * v)

/-- `parseInt(s)` with no radix: like radix 10 but a `0x`/`0X` prefix
switches to hexadecimal. -/
def parseIntAuto (s : String) : Option Int :=
  let cs := s.data.dropWhile isWsChar
  let sg := parseIntSign cs
  (match sg.2 with
   | c0 :: c1 :: rest =>
     if c0 = Char.ofNat 48 ∧ (c1 = Char.ofNat 120 ∨ c1 = Char.ofNat 88) then
       parseIntFrom 16 digitVal16 rest
     else parseIntFrom 10 digitVal10 sg.2
   | _ => parseIntFrom 10 digitVal10 sg.2).map (fun v => sg.1 * v)

/-- The flag-key camelization: every hyphen followed by a lowercase
letter is replaced by that letter uppercased (the global regex
replacement in the source). -/
def camelizeAux : List Char → List Char
  | [] => []
  | c :: [] => [c]
  | c :: c2 :: rest =>
    if c = Char.ofNat 45 ∧ c2.toNat ≥ 97 ∧ c2.toNat ≤ 122 then
      c2.toUpper :: camelizeAux rest
    else c :: camelizeAux (c2 :: rest)

def camelize (s : String) : String := String.mk (camelizeAux s.data)

/-- A Commander option value: a string argument, or `true` for a present
boolean flag. -/
inductive OptVal where
  | str (s : String)
  | flagTrue
deriving DecidableEq, Repr

/-- The dynamic per-parameter option entries of the `options` object,
looked up by camelized flag key. -/
def Opts : Type := List (String × OptVal)

def optLookup : List (String × OptVal) → String → Option OptVal
  | [], _ => none
  | (k, v) :: r, key => if k = key then some v else optLookup r key

def optValToJval : OptVal → Jval
  | .str s => .jstr s
  | .flagTrue => .jbool true

mutual

/-- `buildSchemaParams` on one property.  Object-typed properties always
materialize `result[key] = {}` when absent or falsy, then recurse into
it; primitive properties read the camelized flag, with numeric string
values going through `parseInt(..., 10)` (a failed parse throws naming
the option) and other cases assigned as in the source.  A truthy
non-object already stored at an object key makes the recursive walk
write properties on a primitive, a strict-mode `TypeError`. -/
def buildSchemaShape (opts : List (String × OptVal)) (key : String) (sh : Shape)
    (result : Jobj) : Except String Jobj :=
  match sh with
  | .obj subprops _ =>
    let cur := (jsGetField result key).getD .jnull
    let cur2 := if jsTruthy cur then cur else Jval.jobj .nil
    (match cur2 with
     | .jobj sub =>
       (match buildSchemaProps opts subprops sub with
        | .ok sub2 => .ok (jsSetField result key (.jobj sub2))
        | .error e => .error e)
     | _ => .error "TypeError: cannot create property on a primitive")
  | .prim ty =>
    (match optLookup opts (camelize key) with
     | none => .ok result
     | some v =>
       (match ty, v with
        | .pnumber, .str s | .pinteger, .str s =>
          (match parseInt10 s with
           | some n => .ok (jsSetField result key (.jnum n))
           | none => .error ("Invalid number for option \"--" ++ key ++ "\""))
        | .pboolean, _ => .ok (jsSetField result key (.jbool true))
        | _, _ => .ok (jsSetField result key (optValToJval v))))
  | .other => .ok result

/-- `buildSchemaParams` over a property list in insertion order,
threading the result object. -/
def buildSchemaProps (opts : List (String × OptVal)) :
    Props → Jobj → Except String Jobj
  | .nil, result => .ok result
  | .cons key sh rest, result =>
    (match buildSchemaShape opts key sh result with
     | .ok result2 => buildSchemaProps opts rest result2
     | .error e => .error e)

end

/-! ## Positional merge, object spread, and `buildParams` -/

/-- The nested-path walk of `mergePositionalParameters`: falsy
intermediate slots are replaced by `\x7b\x7d`, then the walk descends; a
truthy non-object on the path makes the subsequent property write a
strict-mode `TypeError` (named properties on arrays are outside the value
model and treated the same way). -/
def setPath (o : Jobj) : List String → Jval → Except String Jobj
  | [], _ => .ok o
  | [last], v => .ok (jsSetField o last v)
  | seg :: seg2 :: rest, v =>
    let cur := (jsGetField o seg).getD .jnull
    let cur2 := if jsTruthy cur then cur else Jval.jobj .nil
    (match cur2 with
     | .jobj sub =>
       (match setPath sub (seg2 :: rest) v with
        | .ok sub2 => .ok (jsSetField o seg (.jobj sub2))
        | .error e => .error e)
     | _ => .error "TypeError: cannot create property on a primitive")

/-- The name of a positional parameter type in error messages. -/
def ptyStr : PType → String
  | .pstring => "string"
  | .pnumber => "number"
  | .pinteger => "integer"
  | .pboolean => "boolean"

/-- A single quote, kept out of string literals. -/
def quoteCh : String := String.mk [Char.ofNat 39]

/-- The loop of `mergePositionalParameters` over (parameter, argument)
pairs: numeric parameters go through radix-free `parseInt` (failure
throws naming the parameter and value), strings pass through, and the
converted value is written at the parameter's path. -/
def mergePosLoop : Jobj → List (PParam × String) → Except String Jobj
  | params, [] => .ok params
  | params, (p, value) :: rest =>
    (match
      (match p.ty with
       | .pnumber | .pinteger =>
         (match parseIntAuto value with
          | some n => Except.ok (Jval.jnum n)
          | none => Except.error ("Invalid " ++ ptyStr p.ty ++
              " value for parameter " ++ quoteCh ++ p.name ++ quoteCh ++ ": " ++ value))
       | _ => Except.ok (Jval.jstr value)) with
     | .error e => .error e
     | .ok cv =>
       (match setPath params p.path cv with
        | .ok params2 => mergePosLoop params2 rest
        | .error e => .error e))

/-- `mergePositionalParameters`: pair positional arguments with the
resolver's ordered list (`Math.min` of the lengths via `zip`) and fold
the writes over the params object.  With at least one pair, a primitive
params root cannot take the final property write. -/
def mergePositionalParameters (params : Jval) (schema : Option Shape)
    (args : List String) : Except String Jval :=
  match (getPositionalParameters schema).zip args with
  | [] => .ok params
  | pair :: pairs =>
    (match params with
     | .jobj o =>
       (match mergePosLoop o (pair :: pairs) with
        | .ok o2 => .ok (.jobj o2)
        | .error e => .error e)
     | _ => .error "TypeError: cannot create property on a primitive")

/-- Spread of an object's entries into a target, in order; a later entry
with the same key overwrites. -/
def spreadEntries : Jobj → Jobj → Jobj
  | t, .nil => t
  | t, .cons k v r => spreadEntries (jsSetField t k v) r

/-- Spread of a string: its indexed characters become properties. -/
def spreadStrAux : Jobj → Nat → List Char → Jobj
  | t, _, [] => t
  | t, i, c :: cs =>
    spreadStrAux (jsSetField t (String.mk (natChars i)) (.jstr (String.mk [c])))
      (i + 1) cs

/-- The object spread `\x7b...target, ...v\x7d` contribution of `v`:
objects contribute their entries, strings their indexed characters, other
primitives nothing. -/
def jsSpread (target : Jobj) : Jval → Jobj
  | .jobj o => spreadEntries target o
  | .jstr s => spreadStrAux target 0 s.data
  | _ => target

/-- `Object.keys(params).length === 0`: throws on `null`, counts indexed
characters for strings and elements for arrays. -/
def jvalKeysEmpty : Jval → Except String Bool
  | .jnull => .error "TypeError: cannot convert undefined or null to object"
  | .jobj .nil => .ok true
  | .jobj (.cons _ _ _) => .ok false
  | .jstr s => .ok s.data.isEmpty
  | .jarr .nil => .ok true
  | .jarr (.cons _ _) => .ok false
  | _ => .ok true

/-- `buildDefaultParams` inner loop over a required object field's own
`required` list: object-typed nested fields get `\x7b\x7d`. -/
def buildDefaultInner (subprops : Props) (subreq : List String) : Jobj :=
  subreq.foldl (fun inner nf =>
    match propsGet subprops nf with
    | some (.obj _ _) => jsSetField inner nf (.jobj .nil)
    | _ => inner) .nil

/-- `buildDefaultParams`: each top-level required object-typed field gets
an object holding `\x7b\x7d` for its own required object-typed fields. -/
def buildDefaultParams (schema : Option Shape) : Jobj :=
  match schema with
  | some (.obj props req) =>
    req.foldl (fun params rf =>
      match propsGet props rf with
      | some (.obj subprops subreq) =>
        jsSetField params rf (.jobj (buildDefaultInner subprops subreq))
      | _ => params) .nil
  | _ => .nil

/-- The `options` object of `buildParams`: the `--params` JSON string,
the contents of the `--file` file when one was given (the read itself is
assumed to succeed; engine-specific `error.message` suffixes of the parse
errors are elided), and the dynamic per-parameter flag entries. -/
structure CmdOptions where
  params? : Option String
  file? : Option String
  flags : List (String × OptVal)

def schemaHasRequired : Option Shape → Bool
  | some (.obj _ _) => true
  | _ => false

/-- `buildParams`: (1) parse `--params`, (2) spread the file JSON over
it, (3) spread the flag-built object over that, (4) merge positional
arguments, (5) fall back to the required default skeleton when the
result has no keys and the schema has a `required` list. -/
def buildParams (options : CmdOptions) (schema : Option Shape)
    (positionalArgs : List String) : Except String Jval :=
  match (match options.params? with
         | none => Except.ok (Jval.jobj .nil)
         | some pstr =>
           (match jsonParse pstr with
            | some v => Except.ok v
            | none => Except.error "Invalid JSON in --params option")) with
  | .error e => .error e
  | .ok params1 =>
    match (match options.file? with
           | none => Except.ok params1
           | some content =>
             (match jsonParse content with
              | some fv =>
                Except.ok (Jval.jobj (jsSpread (jsSpread Jobj.nil params1) fv))
              | none =>
                Except.error "Failed to read or parse parameters from file")) with
    | .error e => .error e
    | .ok params2 =>
      match (match schema with
             | some (.obj props _) =>
               (match buildSchemaProps options.flags props .nil with
                | .ok sp =>
                  Except.ok (Jval.jobj (jsSpread (jsSpread Jobj.nil params2) (.jobj sp)))
                | .error e => Except.error e)
             | _ => Except.ok params2) with
      | .error e => .error e
      | .ok params3 =>
        match (match positionalArgs with
               | [] => Except.ok params3
               | _ => mergePositionalParameters params3 schema positionalArgs) with
        | .error e => .error e
        | .ok params4 =>
          match jvalKeysEmpty params4 with
          | .error e => .error e
          | .ok isEmpty =>
            if isEmpty && schemaHasRequired schema then
              .ok (.jobj (buildDefaultParams schema))
            else .ok params4

instance : DecidableEq (Except String Jval) := fun x y =>
  match x, y with
  | .ok a, .ok b =>
    if h : a = b then isTrue (by rw [h]) else isFalse (fun hc => h (by injection hc))
  | .error a, .error b =>
    if h : a = b then isTrue (by rw [h]) else isFalse (fun hc => h (by injection hc))
  | .ok _, .error _ => isFalse (fun hc => by injection hc)
  | .error _, .ok _ => isFalse (fun hc => by injection hc)

/-- The nested schema of the C1 counterexample:
an object property `o` with integer leaves `a` and `b`. -/
def c1props : Props :=
  Props.cons "o" (.obj (Props.cons "a" (.prim .pinteger)
    (Props.cons "b" (.prim .pinteger) Props.nil)) []) Props.nil

/-- Inline JSON of the C1 counterexample: the nested sibling `b`. -/
def c1inline : Jobj :=
  Jobj.cons "o" (.jobj (Jobj.cons "b" (.jnum 5) Jobj.nil)) Jobj.nil

/-- C1 counterexample: per-parameter flags do NOT override inline JSON at
the leaf level.  With inline JSON `o.b = 5` and the flag `a = 9`, the
flag-built object `o` replaces the inline `o` wholesale in the shallow
spread, so the sibling leaf `o.b` from inline JSON is lost instead of
preserved: the result is exactly `o = (a = 9)` and looking up `b` inside
`o` yields nothing. -/
theorem c1_counterexample :
    buildParams ⟨some (stringifyC (.jobj c1inline)), none, [("a", OptVal.str "9")]⟩
      (some (.obj c1props [])) [] =
      .ok (.jobj (Jobj.cons "o" (.jobj (Jobj.cons "a" (.jnum 9) Jobj.nil)) Jobj.nil)) ∧
    jsGetField (Jobj.cons "a" (.jnum 9) Jobj.nil) "b" = none := by
  constructor
  · rfl
  · rfl

/-- The flat schema with integer leaves `a` and `b` used by the
parameter-builder claims. -/
def flatAB : Props :=
  Props.cons "a" (.prim .pinteger) (Props.cons "b" (.prim .pinteger) Props.nil)

/-- C7 counterexample: a non-numeric textual value for a numeric
parameter does NOT always fail.  `parseInt` keeps the maximal numeric
prefix, so the flag value `12abc` is accepted as `12` with no error, and
the positional argument `7x` is accepted as `7`. -/
theorem c7_counterexample :
    buildParams ⟨none, none, [("a", OptVal.str "12abc")]⟩
      (some (.obj flatAB [])) [] =
      .ok (.jobj (Jobj.cons "a" (.jnum 12) Jobj.nil)) ∧
    buildParams ⟨none, none, []⟩ (some (.obj flatAB ["a"])) ["7x"] =
      .ok (.jobj (Jobj.cons "a" (.jnum 7) Jobj.nil)) := by
  constructor
  · rfl
  · rfl

/-! ## The no-flags schema walk materializes object skeletons -/

/-- Every value in the object is itself an object, recursively. -/
def objValsDeep : Jobj → Bool
  | .nil => true
  | .cons _ (.jobj x) r => objValsDeep x && objValsDeep r
  | .cons _ _ _ => false

def propsHasObject : Props → Bool
  | .nil => false
  | .cons _ (.obj _ _) _ => true
  | .cons _ _ r => propsHasObject r

def isObjShape : Shape → Bool
  | .obj _ _ => true
  | _ => false

theorem jsSetField_ne_nil (o : Jobj) (k : String) (v : Jval) :
    jsSetField o k v ≠ .nil := by
  match o with
  | .nil => simp [jsSetField]
  | .cons k2 v2 r =>
    by_cases h : k2 = k <;> simp [jsSetField, h]

theorem objValsDeep_set : ∀ (r : Jobj) (k : String) (x : Jobj),
    objValsDeep r = true → objValsDeep x = true →
    objValsDeep (jsSetField r k (.jobj x)) = true
  | .nil, k, x, _, hx => by simp [jsSetField, objValsDeep, hx]
  | .cons k2 v2 r, k, x, hr, hx => by
    match v2, hr with
    | .jobj y, hr =>
      rw [objValsDeep, Bool.and_eq_true] at hr
      by_cases h : k2 = k
      · simp [jsSetField, h, objValsDeep, hx, hr.2]
      · simp [jsSetField, h, objValsDeep, hr.1,
          objValsDeep_set r k x hr.2 hx]

theorem objValsDeep_get : ∀ {r : Jobj} {k : String} {v : Jval},
    objValsDeep r = true → jsGetField r k = some v →
    ∃ x, v = .jobj x ∧ objValsDeep x = true
  | .cons k2 v2 r, k, v, hr, hg => by
    match v2, hr with
    | .jobj y, hr =>
      rw [objValsDeep, Bool.and_eq_true] at hr
      rw [jsGetField] at hg
      by_cases h : k2 = k
      · rw [if_pos h] at hg
        injection hg with hg2
        exact ⟨y, hg2.symm, hr.1⟩
      · rw [if_neg h] at hg
        exact objValsDeep_get hr.2 hg

theorem propsHasObject_cons {key : String} {sh : Shape} {rest : Props}
    (h : propsHasObject (.cons key sh rest) = true) :
    isObjShape sh = true ∨ propsHasObject rest = true := by
  match sh with
  | .obj a b => exact Or.inl rfl
  | .prim ty => exact Or.inr h
  | .other => exact Or.inr h

mutual

theorem buildSchemaShape_noflags : ∀ (key : String) (sh : Shape) (r : Jobj),
    objValsDeep r = true →
    ∃ r2, buildSchemaShape [] key sh r = .ok r2 ∧ objValsDeep r2 = true ∧
      (r ≠ .nil → r2 ≠ .nil) ∧ (isObjShape sh = true → r2 ≠ .nil)
  | key, .prim ty, r, hr =>
    ⟨r, rfl, hr, fun h => h, fun h => by simp [isObjShape] at h⟩
  | key, .other, r, hr =>
    ⟨r, rfl, hr, fun h => h, fun h => by simp [isObjShape] at h⟩
  | key, .obj subprops req2, r, hr => by
    rcases hg : jsGetField r key with _ | v
    · obtain ⟨sub2, hs, hd, _, _⟩ := buildSchemaProps_noflags subprops .nil rfl
      refine ⟨jsSetField r key (.jobj sub2), ?_, objValsDeep_set r key sub2 hr hd,
        fun _ => jsSetField_ne_nil r key _, fun _ => jsSetField_ne_nil r key _⟩
      simp +decide only [buildSchemaShape, hg, Option.getD, jsTruthy, hs,
        if_true, if_false]
    · obtain ⟨x, rfl, hx⟩ := objValsDeep_get hr hg
      obtain ⟨sub2, hs, hd, _, _⟩ := buildSchemaProps_noflags subprops x hx
      refine ⟨jsSetField r key (.jobj sub2), ?_, objValsDeep_set r key sub2 hr hd,
        fun _ => jsSetField_ne_nil r key _, fun _ => jsSetField_ne_nil r key _⟩
      simp +decide only [buildSchemaShape, hg, Option.getD, jsTruthy, hs,
        if_true, if_false]

theorem buildSchemaProps_noflags : ∀ (props : Props) (r : Jobj),
    objValsDeep r = true →
    ∃ r2, buildSchemaProps [] props r = .ok r2 ∧ objValsDeep r2 = true ∧
      (r ≠ .nil → r2 ≠ .nil) ∧ (propsHasObject props = true → r2 ≠ .nil)
  | .nil, r, hr =>
    ⟨r, rfl, hr, fun h => h, fun h => by simp [propsHasObject] at h⟩
  | .cons key sh rest, r, hr => by
    obtain ⟨r2, h2, hd2, hn2, ho2⟩ := buildSchemaShape_noflags key sh r hr
    obtain ⟨r3, h3, hd3, hn3, ho3⟩ := buildSchemaProps_noflags rest r2 hd2
    refine ⟨r3, ?_, hd3, fun h => hn3 (hn2 h), ?_⟩
    · simp only [buildSchemaProps, h2, h3]
    · intro h
      rcases propsHasObject_cons h with h4 | h4
      · exact hn3 (ho2 h4)
      · exact ho3 h4

end

theorem spreadEntries_ne_nil : ∀ (t o : Jobj), t ≠ .nil ∨ o ≠ .nil →
    spreadEntries t o ≠ .nil
  | t, .nil, h => by
    rw [spreadEntries]
    rcases h with h | h
    · exact h
    · exact absurd rfl h
  | t, .cons k v r, _ => by
    rw [spreadEntries]
    exact spreadEntries_ne_nil (jsSetField t k v) r (Or.inl (jsSetField_ne_nil t k v))

/-- C9: for every schema with at least one object-typed property,
`buildParams` with no inline JSON, no file, no flags and no positional
arguments still returns a non-empty object: the flag walk materializes an
empty nested object for every object-typed property, so the result has at
least one key and the step-5 required-skeleton fallback is skipped. -/
theorem c9_object_props_nonempty (props : Props) (req : List String)
    (hobj : propsHasObject props = true) :
    ∃ o, buildParams ⟨none, none, []⟩ (some (.obj props req)) [] = .ok (.jobj o) ∧
      o ≠ Jobj.nil := by
  obtain ⟨sp, hsp, _, _, hnn⟩ := buildSchemaProps_noflags props .nil rfl
  have hspn : sp ≠ .nil := hnn hobj
  have hne : spreadEntries Jobj.nil sp ≠ .nil :=
    spreadEntries_ne_nil _ sp (Or.inr hspn)
  rcases hsq : spreadEntries Jobj.nil sp with _ | ⟨k, v, r⟩
  · exact absurd hsq hne
  · refine ⟨Jobj.cons k v r, ?_, by intro hc; injection hc⟩
    simp +decide only [buildParams, hsp, jsSpread, spreadEntries, hsq,
      jvalKeysEmpty, if_true, if_false, Bool.false_and]

/-- Witness for C9: the one-object-property schema with an empty
invocation yields a non-empty object. -/
theorem c9_object_props_nonempty_witness :
    ∃ o, buildParams ⟨none, none, []⟩ (some (.obj c1props ["o"])) [] =
      .ok (.jobj o) ∧ o ≠ Jobj.nil :=
  c9_object_props_nonempty c1props ["o"] (by decide)

/-! ## Top-level spread precedence -/

def jobjKeys : Jobj → List String
  | .nil => []
  | .cons k _ r => k :: jobjKeys r

theorem jsGetField_eq_none : ∀ {o : Jobj} {k : String}, k ∉ jobjKeys o →
    jsGetField o k = none
  | .nil, k, _ => rfl
  | .cons k2 v2 r, k, h => by
    rw [jobjKeys, List.mem_cons] at h
    push_neg at h
    rw [jsGetField, if_neg (fun hc => h.1 hc.symm)]
    exact jsGetField_eq_none h.2

theorem mem_jobjKeys_set : ∀ {o : Jobj} {k x : String} {v : Jval},
    x ∈ jobjKeys (jsSetField o k v) → x ∈ jobjKeys o ∨ x = k
  | .nil, k, x, v, h => by
    rw [jsSetField, jobjKeys, jobjKeys] at h
    rcases List.mem_cons.mp h with h | h
    · exact Or.inr h
    · exact absurd h (List.not_mem_nil x)
  | .cons k2 v2 r, k, x, v, h => by
    by_cases hk : k2 = k
    · rw [jsSetField, if_pos hk, jobjKeys] at h
      exact Or.inl h
    · rw [jsSetField, if_neg hk, jobjKeys] at h
      rcases List.mem_cons.mp h with h | h
      · exact Or.inl (by rw [jobjKeys, h]; exact List.mem_cons_self k2 _)
      · rcases mem_jobjKeys_set h with h | h
        · exact Or.inl (by rw [jobjKeys]; exact List.mem_cons_of_mem k2 h)
        · exact Or.inr h

theorem nodup_keys_set : ∀ {o : Jobj} (k : String) (v : Jval),
    (jobjKeys o).Nodup → (jobjKeys (jsSetField o k v)).Nodup
  | .nil, k, v, _ => by simp [jsSetField, jobjKeys]
  | .cons k2 v2 r, k, v, h => by
    rw [jobjKeys, List.nodup_cons] at h
    by_cases hk : k2 = k
    · rw [jsSetField, if_pos hk, jobjKeys, List.nodup_cons]
      exact h
    · rw [jsSetField, if_neg hk, jobjKeys, List.nodup_cons]
      refine ⟨fun hc => ?_, nodup_keys_set k v h.2⟩
      rcases mem_jobjKeys_set hc with h2 | h2
      · exact h.1 h2
      · exact hk h2

theorem nodup_keys_spreadEntries : ∀ (t o : Jobj),
    (jobjKeys t).Nodup → (jobjKeys (spreadEntries t o)).Nodup
  | t, .nil, h => h
  | t, .cons k v r, h => by
    rw [spreadEntries]
    exact nodup_keys_spreadEntries _ r (nodup_keys_set k v h)

theorem get_spreadEntries : ∀ (t o : Jobj) (k : String), (jobjKeys o).Nodup →
    jsGetField (spreadEntries t o) k =
      (match jsGetField o k with
       | some v => some v
       | none => jsGetField t k)
  | t, .nil, k, _ => by rw [spreadEntries, jsGetField]
  | t, .cons k1 v1 r, k, hnd => by
    rw [jobjKeys, List.nodup_cons] at hnd
    rw [spreadEntries, get_spreadEntries _ r k hnd.2]
    by_cases hk : k1 = k
    · subst hk
      rw [jsGetField_eq_none hnd.1, jsGetField, if_pos rfl,
        jsGetField_jsSetField]
    · rw [jsGetField, if_neg hk]
      rcases hg : jsGetField r k with _ | v
      · rw [jsGetField_jsSetField_other t (fun hc => hk hc.symm)]
      · rfl

mutual

theorem buildSchemaShape_nodup : ∀ (opts : List (String × OptVal)) (key : String)
    (sh : Shape) (r r2 : Jobj), buildSchemaShape opts key sh r = .ok r2 →
    (jobjKeys r).Nodup → (jobjKeys r2).Nodup
  | opts, key, .other, r, r2, h, hnd => by
    rw [buildSchemaShape] at h
    injection h with h2
    rw [← h2]
    exact hnd
  | opts, key, .prim ty, r, r2, h, hnd => by
    rw [buildSchemaShape] at h
    split at h
    · injection h with h2
      rw [← h2]
      exact hnd
    · split at h
      · split at h
        · injection h with h2
          rw [← h2]
          exact nodup_keys_set _ _ hnd
        · injection h
      · split at h
        · injection h with h2
          rw [← h2]
          exact nodup_keys_set _ _ hnd
        · injection h
      · injection h with h2
        rw [← h2]
        exact nodup_keys_set _ _ hnd
      · injection h with h2
        rw [← h2]
        exact nodup_keys_set _ _ hnd
  | opts, key, .obj subprops req2, r, r2, h, hnd => by
    rw [buildSchemaShape] at h
    split at h
    · rename_i sub hsub
      split at h
      · rename_i sub2 hsub2
        injection h with h2
        rw [← h2]
        exact nodup_keys_set _ _ hnd
      · injection h
    · injection h

theorem buildSchemaProps_nodup : ∀ (opts : List (String × OptVal)) (props : Props)
    (r r2 : Jobj), buildSchemaProps opts props r = .ok r2 →
    (jobjKeys r).Nodup → (jobjKeys r2).Nodup
  | opts, .nil, r, r2, h, hnd => by
    rw [buildSchemaProps] at h
    injection h with h2
    rw [← h2]
    exact hnd
  | opts, .cons key sh rest, r, r2, h, hnd => by
    rw [buildSchemaProps] at h
    split at h
    · rename_i rmid hmid
      exact buildSchemaProps_nodup opts rest rmid r2 h
        (buildSchemaShape_nodup opts key sh r rmid hmid hnd)
    · injection h

end

/-- C1 amended: flag-built values override file and inline JSON per
TOP-LEVEL key (whole values are replaced by the shallow spreads), not at
the leaf level: for every schema, inline object `iv` with distinct keys,
file object `fv` with distinct keys, and flag layer building to `sp`,
`buildParams` returns the object whose lookup at any key takes the
flag-built value first, then the file value, then the inline value.  In
particular the spec's precedence example — inline `a = 1, b = 2`, file
`b = 3`, flag `a = 9` giving `a = 9, b = 3` — is an instance. -/
theorem c1_amended_top_level_precedence (props : Props) (req : List String)
    (iv fv sp : Jobj) (flags : List (String × OptVal))
    (hsp : buildSchemaProps flags props .nil = .ok sp)
    (hiv : (jobjKeys iv).Nodup) (hfv : (jobjKeys fv).Nodup)
    (hne : iv ≠ .nil) :
    ∃ res, buildParams ⟨some (stringifyC (.jobj iv)), some (stringifyC (.jobj fv)),
        flags⟩ (some (.obj props req)) [] = .ok (.jobj res) ∧
      ∀ k, jsGetField res k =
        (match jsGetField sp k with
         | some v => some v
         | none =>
           (match jsGetField fv k with
            | some w => some w
            | none => jsGetField iv k)) := by
  have hndZ : (jobjKeys (spreadEntries Jobj.nil iv)).Nodup :=
    nodup_keys_spreadEntries _ iv List.nodup_nil
  have hndX : (jobjKeys (spreadEntries (spreadEntries Jobj.nil iv) fv)).Nodup :=
    nodup_keys_spreadEntries _ fv hndZ
  have hndsp : (jobjKeys sp).Nodup := buildSchemaProps_nodup flags props .nil sp hsp
    List.nodup_nil
  have hneX : spreadEntries (spreadEntries Jobj.nil iv) fv ≠ .nil :=
    spreadEntries_ne_nil _ fv (Or.inl (spreadEntries_ne_nil _ iv (Or.inr hne)))
  have hneR : spreadEntries (spreadEntries Jobj.nil
      (spreadEntries (spreadEntries Jobj.nil iv) fv)) sp ≠ .nil :=
    spreadEntries_ne_nil _ sp (Or.inl (spreadEntries_ne_nil _ _ (Or.inr hneX)))
  refine ⟨spreadEntries (spreadEntries Jobj.nil
    (spreadEntries (spreadEntries Jobj.nil iv) fv)) sp, ?_, ?_⟩
  · rcases hsq : spreadEntries (spreadEntries Jobj.nil
        (spreadEntries (spreadEntries Jobj.nil iv) fv)) sp with _ | ⟨k, v, r⟩
    · exact absurd hsq hneR
    · simp +decide only [buildParams, jsonParse_stringifyC, jsSpread, hsp, hsq,
        jvalKeysEmpty, if_true, if_false, Bool.false_and]
  · intro k
    rw [get_spreadEntries _ sp k hndsp]
    rcases jsGetField sp k with _ | v
    · rw [get_spreadEntries _ _ k hndX, get_spreadEntries _ fv k hfv,
        get_spreadEntries _ iv k hiv]
      rcases jsGetField fv k with _ | w
      · rcases jsGetField iv k with _ | u <;> rfl
      · rfl
    · rfl

/-- Witness for C1's amended precedence law at the spec's own example:
inline `a = 1, b = 2`, file `b = 3`, flag `a = 9`; the result is exactly
`a = 9, b = 3`. -/
theorem c1_amended_top_level_precedence_witness :
    (∃ res, buildParams ⟨some (stringifyC (.jobj (Jobj.cons "a" (.jnum 1)
        (Jobj.cons "b" (.jnum 2) Jobj.nil)))),
        some (stringifyC (.jobj (Jobj.cons "b" (.jnum 3) Jobj.nil))),
        [("a", OptVal.str "9")]⟩ (some (.obj flatAB [])) [] = .ok (.jobj res) ∧
      ∀ k, jsGetField res k =
        (match jsGetField (Jobj.cons "a" (.jnum 9) Jobj.nil) k with
         | some v => some v
         | none =>
           (match jsGetField (Jobj.cons "b" (.jnum 3) Jobj.nil) k with
            | some w => some w
            | none => jsGetField (Jobj.cons "a" (.jnum 1)
                (Jobj.cons "b" (.jnum 2) Jobj.nil)) k))) ∧
    buildParams ⟨some (stringifyC (.jobj (Jobj.cons "a" (.jnum 1)
        (Jobj.cons "b" (.jnum 2) Jobj.nil)))),
        some (stringifyC (.jobj (Jobj.cons "b" (.jnum 3) Jobj.nil))),
        [("a", OptVal.str "9")]⟩ (some (.obj flatAB [])) [] =
      .ok (.jobj (Jobj.cons "a" (.jnum 9) (Jobj.cons "b" (.jnum 3) Jobj.nil))) :=
  ⟨c1_amended_top_level_precedence flatAB [] (Jobj.cons "a" (.jnum 1)
      (Jobj.cons "b" (.jnum 2) Jobj.nil)) (Jobj.cons "b" (.jnum 3) Jobj.nil)
      (Jobj.cons "a" (.jnum 9) Jobj.nil) [("a", OptVal.str "9")]
      (by rfl) (by decide) (by decide) (by decide),
    by rfl⟩

/-! ## First-failure laws for numeric parsing -/

def Props.append : Props → Props → Props
  | .nil, q => q
  | .cons k sh r, q => .cons k sh (Props.append r q)

theorem buildSchemaProps_append (opts : List (String × OptVal)) :
    ∀ (pre q : Props) (r : Jobj),
    buildSchemaProps opts (Props.append pre q) r =
      (match buildSchemaProps opts pre r with
       | .ok r2 => buildSchemaProps opts q r2
       | .error e => .error e)
  | .nil, q, r => by rw [Props.append, buildSchemaProps]
  | .cons key sh rest, q, r => by
    rw [Props.append, buildSchemaProps]
    rcases hs : buildSchemaShape opts key sh r with e | r2
    · rw [buildSchemaProps, hs]
    · rw [buildSchemaProps, hs]
      show buildSchemaProps opts (Props.append rest q) r2 =
        (match buildSchemaProps opts rest r2 with
         | .ok r3 => buildSchemaProps opts q r3
         | .error e => .error e)
      exact buildSchemaProps_append opts rest q r2

theorem mergePosLoop_append_error : ∀ (prePairs : List (PParam × String))
    (o o2 : Jobj) (p : PParam) (v : String) (post : List (PParam × String)),
    mergePosLoop o prePairs = .ok o2 →
    (p.ty = .pnumber ∨ p.ty = .pinteger) → parseIntAuto v = none →
    mergePosLoop o (prePairs ++ (p, v) :: post) =
      .error ("Invalid " ++ ptyStr p.ty ++ " value for parameter " ++
        quoteCh ++ p.name ++ quoteCh ++ ": " ++ v)
  | [], o, o2, p, v, post, hpre, hty, hbad => by
    rw [List.nil_append, mergePosLoop]
    rcases hty with h | h <;> rw [h, hbad] <;> rfl
  | (q, w) :: rest, o, o2, p, v, post, hpre, hty, hbad => by
    rw [mergePosLoop] at hpre
    rw [List.cons_append, mergePosLoop]
    split at hpre
    · injection hpre
    · rename_i cv hcv
      split at hpre
      · rename_i omid homid
        exact mergePosLoop_append_error rest omid o2 p v post hpre hty hbad
      · injection hpre

/-- C7 amended: a numeric parameter value whose `parseInt` is `NaN` (no
leading digit) is a hard error naming the offender, on both channels.
For flags: if the schema walk reaches a numeric property whose camelized
flag holds a non-parsing string, `buildParams` fails with
`Invalid number for option "--<name>"`.  For positionals: if the first
failing pair of the resolver-ordered zip holds a non-parsing value for a
numeric parameter, `buildParams` fails with
`Invalid <type> value for parameter <name>: <value>`.  (Values with a
numeric prefix such as `12abc` parse and do NOT error.) -/
theorem c7_amended_nan_errors :
    (∀ (pre rest : Props) (key : String) (ty : PType) (req : List String)
        (flags : List (String × OptVal)) (mid : Jobj) (s : String),
        buildSchemaProps flags pre .nil = .ok mid →
        (ty = .pnumber ∨ ty = .pinteger) →
        optLookup flags (camelize key) = some (.str s) →
        parseInt10 s = none →
        buildParams ⟨none, none, flags⟩
          (some (.obj (Props.append pre (.cons key (.prim ty) rest)) req)) [] =
          .error ("Invalid number for option \"--" ++ key ++ "\"")) ∧
    (∀ (props : Props) (req : List String) (args : List String) (sp o2 : Jobj)
        (prePairs postPairs : List (PParam × String)) (p : PParam) (v : String),
        buildSchemaProps [] props .nil = .ok sp →
        (getPositionalParameters (some (.obj props req))).zip args =
          prePairs ++ (p, v) :: postPairs →
        mergePosLoop (spreadEntries Jobj.nil sp) prePairs = .ok o2 →
        (p.ty = .pnumber ∨ p.ty = .pinteger) →
        parseIntAuto v = none →
        buildParams ⟨none, none, []⟩ (some (.obj props req)) args =
          .error ("Invalid " ++ ptyStr p.ty ++ " value for parameter " ++
            quoteCh ++ p.name ++ quoteCh ++ ": " ++ v)) := by
  constructor
  · intro pre rest key ty req flags mid s hpre hty hlk hbad
    have hshape : buildSchemaShape flags key (.prim ty) mid =
        .error ("Invalid number for option \"--" ++ key ++ "\"") := by
      rcases hty with h | h <;> subst h <;> rw [buildSchemaShape, hlk] <;>
        (show (match parseInt10 s with
          | some n => Except.ok (jsSetField mid key (Jval.jnum n))
          | none => Except.error ("Invalid number for option \"--" ++ key ++ "\""))
          = Except.error ("Invalid number for option \"--" ++ key ++ "\"")
         rw [hbad])
    have hwalk : buildSchemaProps flags
        (Props.append pre (.cons key (.prim ty) rest)) .nil =
        .error ("Invalid number for option \"--" ++ key ++ "\"") := by
      rw [buildSchemaProps_append flags pre _ .nil, hpre]
      show buildSchemaProps flags (Props.cons key (.prim ty) rest) mid = _
      rw [buildSchemaProps, hshape]
    simp +decide only [buildParams, hwalk]
  · intro props req args sp o2 prePairs postPairs p v hsp hzip hloop hty hbad
    have hargs : args ≠ [] := by
      intro hc
      rw [hc, List.zip_nil_right] at hzip
      exact absurd hzip.symm (List.append_ne_nil_of_right_ne_nil _ (by simp))
    rcases args with _ | ⟨a0, arest⟩
    · exact absurd rfl hargs
    · have hmerge : mergePosLoop (spreadEntries Jobj.nil sp)
          ((getPositionalParameters (some (.obj props req))).zip (a0 :: arest)) =
          .error ("Invalid " ++ ptyStr p.ty ++ " value for parameter " ++
            quoteCh ++ p.name ++ quoteCh ++ ": " ++ v) := by
        rw [hzip]
        exact mergePosLoop_append_error prePairs _ o2 p v postPairs hloop hty hbad
      have hmp : mergePositionalParameters
          (.jobj (spreadEntries (spreadEntries Jobj.nil Jobj.nil) sp))
          (some (.obj props req)) (a0 :: arest) =
          .error ("Invalid " ++ ptyStr p.ty ++ " value for parameter " ++
            quoteCh ++ p.name ++ quoteCh ++ ": " ++ v) := by
        rw [mergePositionalParameters,
          show spreadEntries Jobj.nil Jobj.nil = Jobj.nil from rfl]
        rcases hzp : (getPositionalParameters (some (.obj props req))).zip
            (a0 :: arest) with _ | ⟨pair, pairs⟩
        · rw [hzp] at hzip
          exact absurd hzip.symm (List.append_ne_nil_of_right_ne_nil _ (by simp))
        · show (match mergePosLoop (spreadEntries Jobj.nil sp) (pair :: pairs) with
            | .ok o3 => Except.ok (Jval.jobj o3)
            | .error e => Except.error e) =
            .error ("Invalid " ++ ptyStr p.ty ++ " value for parameter " ++
              quoteCh ++ p.name ++ quoteCh ++ ": " ++ v)
          rw [← hzp, hmerge]
      simp +decide only [buildParams, hsp, jsSpread, hmp]

/-- Witness for C7's amended law: the flag value `abc` for integer `a`
fails naming the option, and the positional value `zz` for integer `b`
(after `a` takes `5`) fails naming the parameter. -/
theorem c7_amended_nan_errors_witness :
    buildParams ⟨none, none, [("a", OptVal.str "abc")]⟩
      (some (.obj (Props.append Props.nil (.cons "a" (.prim .pinteger)
        (Props.cons "b" (.prim .pinteger) Props.nil))) [])) [] =
      .error ("Invalid number for option \"--" ++ "a" ++ "\"") ∧
    buildParams ⟨none, none, []⟩ (some (.obj flatAB ["a", "b"])) ["5", "zz"] =
      .error ("Invalid " ++ ptyStr PType.pinteger ++ " value for parameter " ++
        quoteCh ++ "b" ++ quoteCh ++ ": " ++ "zz") :=
  ⟨c7_amended_nan_errors.1 Props.nil (Props.cons "b" (.prim .pinteger) Props.nil)
      "a" .pinteger [] [("a", OptVal.str "abc")] Jobj.nil "abc"
      rfl (Or.inr rfl) (by decide) (by decide),
    c7_amended_nan_errors.2 flatAB ["a", "b"] ["5", "zz"] Jobj.nil
      (Jobj.cons "a" (.jnum 5) Jobj.nil)
      [(⟨"a", ["a"], .pinteger, true⟩, "5")] [] ⟨"b", ["b"], .pinteger, true⟩ "zz"
      rfl (by decide) (by decide) (Or.inr rfl) (by decide)⟩

/-! ## Properties of the positional sort -/

theorem char_eq_of_toNat_eq {c d : Char} (h : c.toNat = d.toNat) : c = d :=
  Char.eq_of_val_eq (UInt32.eq_of_toBitVec_eq (BitVec.eq_of_toNat_eq h))

theorem strLtB_nil_left : ∀ {b : List Char}, strLtB [] b = false → b = []
  | [], _ => rfl
  | c :: cs, h => by rw [strLtB] at h; exact absurd h (by decide)

theorem strLtB_nil_right : ∀ (a : List Char), strLtB a [] = false
  | [] => rfl
  | c :: cs => rfl

theorem strLtB_asymm : ∀ {x y : List Char}, strLtB x y = true → strLtB y x = false
  | [], [], h => by exact absurd h (by decide)
  | [], d :: ds, _ => rfl
  | c :: cs, [], h => by
    exact Bool.noConfusion ((strLtB_nil_right (c :: cs)).symm.trans h)
  | c :: cs, d :: ds, h => by
    rw [strLtB] at h ⊢
    by_cases h1 : c.toNat < d.toNat
    · rw [if_neg (show ¬ d.toNat < c.toNat from by omega), if_pos h1]
    · rw [if_neg h1] at h
      by_cases h2 : d.toNat < c.toNat
      · rw [if_pos h2] at h
        exact absurd h (by decide)
      · rw [if_neg h2] at h
        rw [if_neg h2, if_neg h1]
        exact strLtB_asymm h

theorem strLtB_le_trans : ∀ (c b a : List Char), strLtB b a = false →
    strLtB c b = false → strLtB c a = false
  | [], b, a, h1, h2 => by
    have hb := strLtB_nil_left h2
    subst hb
    have ha := strLtB_nil_left h1
    subst ha
    rfl
  | d :: ds, [], a, h1, h2 => by
    have ha := strLtB_nil_left h1
    subst ha
    rfl
  | d :: ds, e :: es, [], _, _ => rfl
  | d :: ds, e :: es, f :: fs, h1, h2 => by
    rw [strLtB] at h1 h2 ⊢
    by_cases h_ef : e.toNat < f.toNat
    · rw [if_pos h_ef] at h1
      exact absurd h1 (by decide)
    · rw [if_neg h_ef] at h1
      by_cases h_de : d.toNat < e.toNat
      · rw [if_pos h_de] at h2
        exact absurd h2 (by decide)
      · rw [if_neg h_de] at h2
        rw [if_neg (show ¬ d.toNat < f.toNat from by omega)]
        by_cases h_fd : f.toNat < d.toNat
        · rw [if_pos h_fd]
        · rw [if_neg h_fd]
          by_cases h_fe : f.toNat < e.toNat
          · omega
          · rw [if_neg h_fe] at h1
            by_cases h_ed : e.toNat < d.toNat
            · omega
            · rw [if_neg h_ed] at h2
              exact strLtB_le_trans ds es fs h1 h2

theorem strLtB_eq_of_not : ∀ {x y : List Char}, strLtB x y = false →
    strLtB y x = false → x = y
  | [], [], _, _ => rfl
  | [], d :: ds, h1, _ =>
    Bool.noConfusion ((show strLtB [] (d :: ds) = true from rfl).symm.trans h1)
  | c :: cs, [], _, h2 =>
    Bool.noConfusion ((show strLtB [] (c :: cs) = true from rfl).symm.trans h2)
  | c :: cs, d :: ds, h1, h2 => by
    rw [strLtB] at h1 h2
    by_cases hcd : c.toNat < d.toNat
    · rw [if_pos hcd] at h1
      exact absurd h1 (by decide)
    · rw [if_neg hcd] at h1
      by_cases hdc : d.toNat < c.toNat
      · rw [if_pos hdc] at h2
        exact absurd h2 (by decide)
      · rw [if_neg hdc] at h1
        rw [if_neg hdc, if_neg hcd] at h2
        rw [char_eq_of_toNat_eq (show c.toNat = d.toNat from by omega),
          strLtB_eq_of_not h1 h2]

/-- The sort key of a positional parameter. -/
def pkeyOf (p : PParam) : Nat × String := (p.path.length, p.name)

theorem pKeyLt_unfold (a b : PParam) : pKeyLt a b = true ↔
    (a.path.length < b.path.length ∨
      (a.path.length = b.path.length ∧ strLtB a.name.data b.name.data = true)) := by
  rw [pKeyLt]
  simp [Bool.or_eq_true, Bool.and_eq_true]

theorem pKeyLt_false_unfold (a b : PParam) : pKeyLt a b = false ↔
    (¬ a.path.length < b.path.length ∧
      (¬ a.path.length = b.path.length ∨ strLtB a.name.data b.name.data = false)) := by
  rw [pKeyLt]
  simp [Bool.or_eq_false_iff, Bool.and_eq_false_iff]
  tauto

theorem pKeyLt_asymm (a b : PParam) (h : pKeyLt a b = true) : pKeyLt b a = false := by
  rw [pKeyLt_unfold] at h
  rw [pKeyLt_false_unfold]
  rcases h with h | ⟨h1, h2⟩
  · exact ⟨by omega, Or.inl (by omega)⟩
  · exact ⟨by omega, Or.inr (strLtB_asymm h2)⟩

theorem pKeyLt_le_trans (a b c : PParam) (h1 : pKeyLt b a = false)
    (h2 : pKeyLt c b = false) : pKeyLt c a = false := by
  rw [pKeyLt_false_unfold] at h1 h2 ⊢
  refine ⟨by omega, ?_⟩
  by_cases hlen : c.path.length = a.path.length
  · have hba : b.path.length = a.path.length := by omega
    have hcb : c.path.length = b.path.length := by omega
    rcases h1.2 with h | h
    · omega
    · rcases h2.2 with h3 | h3
      · omega
      · exact Or.inr (strLtB_le_trans _ _ _ h h3)
  · exact Or.inl hlen

theorem pKeyLt_of_le_ne (a b : PParam) (hle : pKeyLt b a = false)
    (hne : pkeyOf a ≠ pkeyOf b) : pKeyLt a b = true := by
  rw [pKeyLt_false_unfold] at hle
  rw [pKeyLt_unfold]
  by_cases hlen : a.path.length = b.path.length
  · right
    refine ⟨hlen, ?_⟩
    rcases hle.2 with h | h
    · omega
    · by_cases hab : strLtB a.name.data b.name.data = true
      · exact hab
      · exfalso
        apply hne
        rw [pkeyOf, pkeyOf, hlen]
        have hdata := strLtB_eq_of_not (Bool.eq_false_iff.mpr (fun hc => hab hc)) h
        have hname : a.name = b.name := congrArg String.mk hdata
        rw [hname]
  · left
    omega

theorem mem_insertPos : ∀ {x : PParam} {l : List PParam} {w : PParam},
    w ∈ insertPos x l → w = x ∨ w ∈ l
  | x, [], w, h => by
    rw [insertPos] at h
    rcases List.mem_cons.mp h with h | h
    · exact Or.inl h
    · exact absurd h (List.not_mem_nil w)
  | x, y :: ys, w, h => by
    rw [insertPos] at h
    by_cases hc : pKeyLt y x = true
    · rw [if_pos hc] at h
      rcases List.mem_cons.mp h with h | h
      · exact Or.inr (by rw [h]; exact List.mem_cons_self y ys)
      · rcases mem_insertPos h with h | h
        · exact Or.inl h
        · exact Or.inr (List.mem_cons_of_mem y h)
    · rw [if_neg hc] at h
      rcases List.mem_cons.mp h with h | h
      · exact Or.inl h
      · exact Or.inr h

theorem pairwise_insertPos : ∀ (x : PParam) (l : List PParam),
    l.Pairwise (fun a b => pKeyLt b a = false) →
    (insertPos x l).Pairwise (fun a b => pKeyLt b a = false)
  | x, [], _ => by
    rw [insertPos]
    exact List.pairwise_singleton _ x
  | x, y :: ys, hp => by
    rw [List.pairwise_cons] at hp
    rw [insertPos]
    by_cases hc : pKeyLt y x = true
    · rw [if_pos hc, List.pairwise_cons]
      refine ⟨fun w hw => ?_, pairwise_insertPos x ys hp.2⟩
      rcases mem_insertPos hw with h | h
      · rw [h]
        exact pKeyLt_asymm y x hc
      · exact hp.1 w h
    · rw [if_neg hc, List.pairwise_cons]
      refine ⟨fun w hw => ?_, List.pairwise_cons.mpr hp⟩
      rcases List.mem_cons.mp hw with h | h
      · rw [h]
        exact Bool.eq_false_iff.mpr hc
      · exact pKeyLt_le_trans x y w (Bool.eq_false_iff.mpr hc) (hp.1 w h)

theorem pairwise_sortPos : ∀ (l : List PParam),
    (sortPos l).Pairwise (fun a b => pKeyLt b a = false)
  | [] => List.Pairwise.nil
  | x :: xs => pairwise_insertPos x (sortPos xs) (pairwise_sortPos xs)

theorem insertPos_perm : ∀ (x : PParam) (l : List PParam),
    (insertPos x l).Perm (x :: l)
  | x, [] => List.Perm.refl _
  | x, y :: ys => by
    rw [insertPos]
    by_cases hc : pKeyLt y x = true
    · rw [if_pos hc]
      exact ((insertPos_perm x ys).cons y).trans (List.Perm.swap x y ys)
    · rw [if_neg hc]

theorem sortPos_perm : ∀ (l : List PParam), (sortPos l).Perm l
  | [] => List.Perm.refl _
  | x :: xs => (insertPos_perm x (sortPos xs)).trans ((sortPos_perm xs).cons x)

theorem sortPos_pairwise_lt (l : List PParam) (hnd : (l.map pkeyOf).Nodup) :
    (sortPos l).Pairwise (fun a b => pKeyLt a b = true) := by
  have hp := pairwise_sortPos l
  have hnd2 : ((sortPos l).map pkeyOf).Nodup :=
    (List.Perm.nodup_iff ((sortPos_perm l).map pkeyOf)).mpr hnd
  have hne : (sortPos l).Pairwise (fun a b => pkeyOf a ≠ pkeyOf b) :=
    List.pairwise_map.mp hnd2
  exact (hp.and hne).imp (fun h => pKeyLt_of_le_ne _ _ h.1 h.2)

/-- The nested object shape `\x7b x : integer (required) \x7d` used in the
C4 collision counterexample. -/
def cxInner : Shape := .obj (Props.cons "x" (.prim .pinteger) Props.nil) ["x"]

/-- Counterexample schema A: properties `a`, then `b`, both `cxInner`. -/
def cexPropsA : Props := Props.cons "a" cxInner (Props.cons "b" cxInner Props.nil)

/-- Counterexample schema B: the same two properties in the other order. -/
def cexPropsB : Props := Props.cons "b" cxInner (Props.cons "a" cxInner Props.nil)

/-- C4 counterexample: equal-depth equal-name collisions DO occur within
one schema, and the output order is NOT invariant to property insertion
order.  Schemas A and B hold the same properties (their property lists
are permutations of each other), both collect two leaves named `x` at
depth 2 (a sort-key collision), and `getPositionalParameters` returns
them in different orders. -/
theorem c4_counterexample :
    (Props.toList cexPropsA).Perm (Props.toList cexPropsB) ∧
    ¬ (((searchProps cexPropsA [] []).map pkeyOf).Nodup) ∧
    getPositionalParameters (some (.obj cexPropsA [])) ≠
      getPositionalParameters (some (.obj cexPropsB [])) :=
  ⟨List.Perm.swap ("b", cxInner) ("a", cxInner) [], by decide, by decide⟩

/-- C4 amended: the resolver output is exactly the collected required
primitive leaves stably sorted by (path depth, then name); whenever the
collected sort keys are pairwise distinct, the comparator is effectively
total, so the output is strictly sorted and any two schemas whose
collections are permutations of each other (in particular, differing
only in property insertion order) produce the SAME output list. -/
theorem c4_amended_distinct_keys (p1 p2 : Props) (r1 r2 : List String)
    (hperm : (searchProps p1 [] r1).Perm (searchProps p2 [] r2))
    (hnd : ((searchProps p1 [] r1).map pkeyOf).Nodup) :
    getPositionalParameters (some (.obj p1 r1)) =
      getPositionalParameters (some (.obj p2 r2)) ∧
    (getPositionalParameters (some (.obj p1 r1))).Perm (searchProps p1 [] r1) ∧
    (getPositionalParameters (some (.obj p1 r1))).Pairwise
      (fun a b => pKeyLt a b = true) := by
  have hnd2 : ((searchProps p2 [] r2).map pkeyOf).Nodup :=
    (List.Perm.nodup_iff (hperm.map pkeyOf)).mp hnd
  have hs1 := sortPos_pairwise_lt (searchProps p1 [] r1) hnd
  have hs2 := sortPos_pairwise_lt (searchProps p2 [] r2) hnd2
  have hchain : (sortPos (searchProps p1 [] r1)).Perm
      (sortPos (searchProps p2 [] r2)) :=
    ((sortPos_perm _).trans hperm).trans (sortPos_perm _).symm
  haveI : IsAntisymm PParam (fun a b => pKeyLt a b = true) :=
    ⟨fun a b h1 h2 => absurd ((pKeyLt_asymm a b h1).symm.trans h2) (by decide)⟩
  exact ⟨List.eq_of_perm_of_sorted hchain hs1 hs2, sortPos_perm _,
    sortPos_pairwise_lt _ hnd⟩

/-- Witness for C4's amended law: two flat schemas with distinct leaves
`a` and `b` in either insertion order resolve to the same output. -/
theorem c4_amended_distinct_keys_witness :
    getPositionalParameters (some (.obj flatAB ["a", "b"])) =
      getPositionalParameters (some (.obj (Props.cons "b" (.prim .pinteger)
        (Props.cons "a" (.prim .pinteger) Props.nil)) ["a", "b"])) ∧
    (getPositionalParameters (some (.obj flatAB ["a", "b"]))).Perm
      (searchProps flatAB [] ["a", "b"]) ∧
    (getPositionalParameters (some (.obj flatAB ["a", "b"]))).Pairwise
      (fun a b => pKeyLt a b = true) :=
  c4_amended_distinct_keys flatAB (Props.cons "b" (.prim .pinteger)
      (Props.cons "a" (.prim .pinteger) Props.nil)) ["a", "b"] ["a", "b"]
    (by decide) (by decide)

/-! ## The dynamic method command action (`src/commands/dynamic/method-commands.ts`) -/

/-- Observable events of one execution of a synthesized method command. -/
inductive Ev where
  | evCallMethod (methodName : String)
  | evPrintResult
  | evErrorReport (methodName : String) (msg : String)
  | evProcessExit (code : Nat)
  | evDisconnect
deriving DecidableEq, Repr

/-- The action body of `addMethodCommand` as an event trace: build the
parameters, call the RPC method, print the formatted result; on success
the `finally` block runs `client.disconnect()`.  A thrown error is caught,
reported as `Failed to execute <method>: <message>`, and the catch block
then calls `process.exit(1)` — which terminates the Node process
immediately, so the pending `finally` block and its `client.disconnect()`
never run. -/
def runMethodAction (methodName : String) (options : CmdOptions)
    (schema : Option Shape) (positionalArgs : List String)
    (callOutcome : Except String Jval) : List Ev :=
  match buildParams options schema positionalArgs with
  | .error e => [.evErrorReport methodName ("Failed to execute " ++ methodName ++
      ": " ++ e), .evProcessExit 1]
  | .ok _params =>
    match callOutcome with
    | .error e => [.evCallMethod methodName,
        .evErrorReport methodName ("Failed to execute " ++ methodName ++ ": " ++ e),
        .evProcessExit 1]
    | .ok _r => [.evCallMethod methodName, .evPrintResult, .evDisconnect]

/-- C5 (refuted — code bug): whenever parameter building or the RPC call
throws, the action reports the error and terminates with exit code 1, but
the connection is NOT released first: `process.exit(1)` sits in the catch
block before the `finally`, and Node terminates without running the
pending `finally`, so no failing path ever emits a disconnect.  The
claim's guarantee `client.disconnect is invoked before the process exits
on every path` is violated on every failing path. -/
theorem c5_disconnect_skipped_on_error (methodName : String) (options : CmdOptions)
    (schema : Option Shape) (args : List String) (call : Except String Jval)
    (hfail : (∃ e, buildParams options schema args = .error e) ∨
      (∃ e, call = .error e)) :
    Ev.evProcessExit 1 ∈ runMethodAction methodName options schema args call ∧
    Ev.evDisconnect ∉ runMethodAction methodName options schema args call := by
  rcases hfail with ⟨e, he⟩ | ⟨e, he⟩
  · rw [runMethodAction.eq_def, he]
    refine ⟨List.mem_cons_of_mem _ (List.mem_cons_self _ _), ?_⟩
    intro hc
    rcases List.mem_cons.mp hc with h | h
    · injection h
    · rcases List.mem_cons.mp h with h | h
      · injection h
      · exact absurd h (List.not_mem_nil _)
  · rw [runMethodAction.eq_def, he]
    rcases hb : buildParams options schema args with e2 | p
    · refine ⟨List.mem_cons_of_mem _ (List.mem_cons_self _ _), ?_⟩
      intro hc
      rcases List.mem_cons.mp hc with h | h
      · injection h
      · rcases List.mem_cons.mp h with h | h
        · injection h
        · exact absurd h (List.not_mem_nil _)
    · refine ⟨List.mem_cons_of_mem _ (List.mem_cons_of_mem _
        (List.mem_cons_self _ _)), ?_⟩
      intro hc
      rcases List.mem_cons.mp hc with h | h
      · injection h
      · rcases List.mem_cons.mp h with h | h
        · injection h
        · rcases List.mem_cons.mp h with h | h
          · injection h
          · exact absurd h (List.not_mem_nil _)

/-- Witness for C5's divergence at a concrete failing input: an invalid
`--params` JSON string makes the action exit with code 1 and never
disconnect. -/
theorem c5_disconnect_skipped_on_error_witness :
    Ev.evProcessExit 1 ∈ runMethodAction "scenario.get" ⟨some "oops", none, []⟩
      none [] (.ok .jnull) ∧
    Ev.evDisconnect ∉ runMethodAction "scenario.get" ⟨some "oops", none, []⟩
      none [] (.ok .jnull) :=
  c5_disconnect_skipped_on_error "scenario.get" ⟨some "oops", none, []⟩ none []
    (.ok .jnull) (Or.inl ⟨"Invalid JSON in --params option", by decide⟩)
